import Mathlib

/-! Command dispatch engine: client registry, command worker, server main loop.

A shallow embedding of `prototype_defs.c`, `prototype_defs.h`, `server.c` and
the read loop of `client.c`.

* The static array `g_registeredClients[MAX_CLIENTS]` is a list of slots and
  `g_numClients` is a C `int`, so a registry state is the pair of both.  Slots
  at index `g_numClients` and above are dead storage; they are kept in the
  state because the C code never clears them.
* Each bounded `for` loop is a structurally recursive function whose first
  numeric argument is the number of iterations that are left.
* Pointers into the array (`RegisteredClient*`) are slot indices, `NULL` is
  `none`.
-/

namespace Proto

/-! ## Data model (`prototype_defs.h`) -/

/-- `#define MAX_CLIENTS 50`. -/
def MAX_CLIENTS : Nat := 50

/-- `typedef struct { long pid; int hidden; } RegisteredClient;`
(`hidden = 0` visible, `hidden = 1` hidden). -/
structure RegisteredClient where
  pid : Int
  hidden : Int
deriving DecidableEq, Repr

/-- The two file-level objects of `prototype_defs.c`:
`static RegisteredClient g_registeredClients[MAX_CLIENTS]` and
`static int g_numClients`. -/
structure Registry where
  g_registeredClients : List RegisteredClient
  g_numClients : Int
deriving DecidableEq, Repr

/-- Static storage is zero-initialised and `g_numClients = 0`. -/
def Registry.init : Registry :=
  { g_registeredClients := List.replicate MAX_CLIENTS ⟨0, 0⟩, g_numClients := 0 }

/-- Array read `a[i]`. -/
def slot (a : List RegisteredClient) (i : Nat) : RegisteredClient :=
  a.getD i ⟨0, 0⟩

/-- The live part of the table: the first `g_numClients` slots. -/
def Registry.entries (r : Registry) : List RegisteredClient :=
  r.g_registeredClients.take r.g_numClients.toNat

/-- States the C program can be in without an out-of-bounds access: the array
has its `MAX_CLIENTS` slots and the counter lies in `[0, MAX_CLIENTS]`. -/
def Registry.WF (r : Registry) : Prop :=
  r.g_registeredClients.length = MAX_CLIENTS ∧
    0 ≤ r.g_numClients ∧ r.g_numClients ≤ (MAX_CLIENTS : Int)

instance (r : Registry) : Decidable r.WF := by
  unfold Registry.WF; infer_instance

/-! ## Registry operations (`prototype_defs.c`) -/

/-- The search loop shared by `get_client_status` and `remove_client_status`:
`for (i = i0; i < g_numClients; i++) if (a[i].pid == client_ID) return i;`
with `k` iterations left; `none` when the loop runs to its end. -/
def findLoop (a : List RegisteredClient) (client_ID : Int) : Nat → Nat → Option Nat
  | 0, _ => none
  | k + 1, i =>
    if (slot a i).pid = client_ID then some i
    else findLoop a client_ID k (i + 1)

/-- `RegisteredClient* get_client_status(pid_t client_ID)`: `none` is `NULL`,
`some i` is `&g_registeredClients[i]`. -/
def get_client_status (r : Registry) (client_ID : Int) : Option Nat :=
  if client_ID = 0 then none
  else findLoop r.g_registeredClients client_ID r.g_numClients.toNat 0

/-- `RegisteredClient* set_client_status(pid_t client_ID, int status)`:
the new registry and the returned pointer. -/
def set_client_status (r : Registry) (client_ID status : Int) : Registry × Option Nat :=
  if status ≠ 0 ∧ status ≠ 1 then (r, none)
  else
    match get_client_status r client_ID with
    | some i =>
      ({ r with g_registeredClients :=
            r.g_registeredClients.set i { slot r.g_registeredClients i with hidden := status } },
        some i)
    | none =>
      if r.g_numClients ≥ (MAX_CLIENTS : Int) then (r, none)
      else
        let n := r.g_numClients.toNat
        let a1 := r.g_registeredClients.set n { slot r.g_registeredClients n with pid := client_ID }
        let a2 := a1.set n { slot a1 n with hidden := status }
        ({ g_registeredClients := a2, g_numClients := r.g_numClients + 1 },
          some (r.g_numClients + 1 - 1).toNat)

/-- The shifting loop of `remove_client_status`:
`for (j = j0; j < g_numClients - 1; j++) a[j] = a[j + 1];`
with `k` iterations left. -/
def shiftLoop (a : List RegisteredClient) : Nat → Nat → List RegisteredClient
  | 0, _ => a
  | k + 1, j => shiftLoop (a.set j (slot a (j + 1))) k (j + 1)

/-- `int remove_client_status(pid_t client_ID)`: the new registry and the
return code (`0` success, `-1` not found). -/
def remove_client_status (r : Registry) (client_ID : Int) : Registry × Int :=
  match findLoop r.g_registeredClients client_ID r.g_numClients.toNat 0 with
  | none => (r, -1)
  | some idx =>
    ({ g_registeredClients :=
          shiftLoop r.g_registeredClients (r.g_numClients - 1 - (idx : Int)).toNat idx,
       g_numClients := r.g_numClients - 1 }, 0)

/-- A line written to standard output by `list_visible_clients`. -/
inductive OutLine where
  | header
  | client (pid : Int)
  | allHidden
  | footer
deriving DecidableEq, Repr

/-- The printing loop of `list_visible_clients`: the pids printed, in order,
with `k` iterations left; `visibleCount` is the length of the result. -/
def listLoop (a : List RegisteredClient) : Nat → Nat → List Int
  | 0, _ => []
  | k + 1, i =>
    if (slot a i).hidden = 0 then (slot a i).pid :: listLoop a k (i + 1)
    else listLoop a k (i + 1)

/-- The client ids `list_visible_clients` prints, in print order. -/
def visibleIds (r : Registry) : List Int :=
  listLoop r.g_registeredClients r.g_numClients.toNat 0

/-- `void list_visible_clients()`: the lines it prints. -/
def list_visible_clients (r : Registry) : List OutLine :=
  let ids := visibleIds r
  [OutLine.header] ++ ids.map OutLine.client ++
    (if ids.length = 0 then [OutLine.allHidden] else []) ++ [OutLine.footer]

/-- The client ids on the `-> Client PID:` lines of an output. -/
def printedIds : List OutLine → List Int
  | [] => []
  | OutLine.client p :: rest => p :: printedIds rest
  | _ :: rest => printedIds rest

/-- Reading through the pointer `get_client_status` returns: the entry it
points to, `none` for `NULL`. -/
def lookup (r : Registry) (client_ID : Int) : Option RegisteredClient :=
  (get_client_status r client_ID).map (slot r.g_registeredClients)

/-- No two live entries share a pid other than 0. -/
def Registry.UniqueNonzero (r : Registry) : Prop :=
  r.entries.Pairwise (fun x y => x.pid = y.pid → x.pid = 0)

/-- Registering a list of ids in turn with `set_client_status(id, 0)`: the
final registry and the pointer each call returned. -/
def registerAll : List Int → Registry → Registry × List (Option Nat)
  | [], r => (r, [])
  | id :: rest, r =>
    let s := set_client_status r id 0
    let t := registerAll rest s.1
    (t.1, s.2 :: t.2)

/-! ## Histories of registry calls -/

/-- One call of a registry operation, with its arguments. -/
inductive RegOp where
  | get (client_ID : Int)
  | set (client_ID status : Int)
  | remove (client_ID : Int)
  | list
deriving DecidableEq, Repr

/-- The registry after one call (results dropped). -/
def RegOp.apply (r : Registry) : RegOp → Registry
  | RegOp.get _ => r
  | RegOp.set client_ID status => (set_client_status r client_ID status).1
  | RegOp.remove client_ID => (remove_client_status r client_ID).1
  | RegOp.list => r

/-- The registry after a history of calls, starting from `r`. -/
def Registry.runFrom (r : Registry) (ops : List RegOp) : Registry :=
  ops.foldl RegOp.apply r

/-- The registry after a history of calls, starting from program start. -/
def Registry.run (ops : List RegOp) : Registry :=
  Registry.init.runFrom ops

/-- A state is reachable when some history of calls leads to it. -/
def Reachable (r : Registry) : Prop :=
  ∃ ops : List RegOp, r = Registry.run ops

/-- A registry together with bookkeeping that the C program does not hold:
for every live slot the number of the call that created its entry, and the
number of calls made so far. -/
structure Tracked where
  reg : Registry
  stamps : List Nat
  clock : Nat
deriving DecidableEq, Repr

/-- Program start: nothing registered, no call made. -/
def Tracked.init : Tracked :=
  { reg := Registry.init, stamps := [], clock := 0 }

/-- One call on a tracked registry.  `set_client_status` creates an entry
exactly when it takes its append branch, which is when the counter goes up;
the new entry is the last live slot.  `remove_client_status` shifts the slots
after the erased one down, and the stamps move with them. -/
def Tracked.step (s : Tracked) (op : RegOp) : Tracked :=
  { reg := op.apply s.reg
    stamps :=
      match op with
      | RegOp.set client_ID status =>
        if (set_client_status s.reg client_ID status).1.g_numClients = s.reg.g_numClients + 1
        then s.stamps ++ [s.clock] else s.stamps
      | RegOp.remove client_ID =>
        match findLoop s.reg.g_registeredClients client_ID s.reg.g_numClients.toNat 0 with
        | some idx => s.stamps.eraseIdx idx
        | none => s.stamps
      | _ => s.stamps
    clock := s.clock + 1 }

/-- A history of calls on a tracked registry, from program start. -/
def Tracked.run (ops : List RegOp) : Tracked :=
  ops.foldl Tracked.step Tracked.init

/-- In the history `hist`, call number `st` created the entry `e` that is
present at the end: it is a `set_client_status` call for the pid of `e` with a
valid status which found no entry for that pid and a table below capacity, so
that it appended one; and, for a non-zero pid, no later call of the history
is a `remove_client_status` for that pid. -/
def CreatedBy (hist : List RegOp) (st : Nat) (e : RegisteredClient) : Prop :=
  (∃ status, hist[st]? = some (RegOp.set e.pid status) ∧ (status = 0 ∨ status = 1)) ∧
    get_client_status (Registry.run (hist.take st)) e.pid = none ∧
    (Registry.run (hist.take st)).g_numClients < (MAX_CLIENTS : Int) ∧
    (e.pid ≠ 0 → ∀ k, st < k → hist[k]? ≠ some (RegOp.remove e.pid))

/-- What the bookkeeping of a tracked registry means after the history `hist`:
the registry is the one the history leads to; slot by slot, the stamp is the
number of the call that created the entry in the slot; stamps grow along the
slots; and every stamp is a call already made. -/
def Tracked.Inv (hist : List RegOp) (t : Tracked) : Prop :=
  t.clock = hist.length ∧ t.reg = Registry.run hist ∧
    List.Forall₂ (CreatedBy hist) t.stamps t.reg.entries ∧
    t.stamps.Pairwise (fun s1 s2 => s1 < s2) ∧
    ∀ s ∈ t.stamps, s < t.clock

/-! ## Command worker (`child_thread_func`, `prototype_defs.c`) -/

/-- The C library's `strcmp` on the characters before the terminating NUL;
only the sign of the result is modelled. -/
def strcmpChars : List Char → List Char → Int
  | [], [] => 0
  | [], _ :: _ => -1
  | _ :: _, [] => 1
  | a :: as, b :: bs =>
    if a = b then strcmpChars as bs else if a.toNat < b.toNat then -1 else 1

/-- `strcmp` on C strings. -/
def strcmp (s t : String) : Int :=
  strcmpChars s.data t.data

/-- The argument conversion `long` to `pid_t` at the calls
`set_client_status(data->client_pid, ...)` and
`remove_client_status(data->client_pid)`: `pid_t` is a 32-bit signed `int`,
the value wraps. -/
def toPidT (x : Int) : Int :=
  (x + 2 ^ 31) % 2 ^ 32 - 2 ^ 31

/-- `typedef struct { char command[256]; long client_pid; } ThreadArg;`. -/
structure ThreadArg where
  command : String
  client_pid : Int
deriving DecidableEq, Repr

/-- A call a worker makes into the registry or the process runner;
`list_visible_clients` is recorded with the lines it printed. -/
inductive Call where
  | set_client_status (client_ID status : Int)
  | list_visible_clients (printed : List OutLine)
  | remove_client_status (client_ID : Int)
  | shell_exec_with_timeout (cmd : String)
deriving DecidableEq, Repr

/-- `void* child_thread_func(void* arg)`: the registry afterwards and the
calls made, in order.  `arg = none` is the `NULL` argument. -/
def child_thread_func (arg : Option ThreadArg) (r : Registry) : Registry × List Call :=
  match arg with
  | none => (r, [])
  | some data =>
    if strcmp data.command "REGISTER" = 0 then
      ((set_client_status r (toPidT data.client_pid) 0).1,
        [Call.set_client_status (toPidT data.client_pid) 0])
    else if strcmp data.command "LIST" = 0 then
      (r, [Call.list_visible_clients (list_visible_clients r)])
    else if strcmp data.command "HIDE" = 0 then
      ((set_client_status r (toPidT data.client_pid) 1).1,
        [Call.set_client_status (toPidT data.client_pid) 1])
    else if strcmp data.command "UNHIDE" = 0 then
      ((set_client_status r (toPidT data.client_pid) 0).1,
        [Call.set_client_status (toPidT data.client_pid) 0])
    else if strcmp data.command "EXIT" = 0 then
      ((remove_client_status r (toPidT data.client_pid)).1,
        [Call.remove_client_status (toPidT data.client_pid)])
    else if strcmp data.command "exit" = 0 then
      (r, [])
    else
      (r, [Call.shell_exec_with_timeout data.command])

/-- The registry after a worker has handled `command` for `client_pid`. -/
def worker (command : String) (client_pid : Int) (r : Registry) : Registry :=
  (child_thread_func (some { command := command, client_pid := client_pid }) r).1

/-- The history in which the clients `1, ..., MAX_CLIENTS` register in turn. -/
def fillHistory : List RegOp :=
  (List.range MAX_CLIENTS).map (fun i => RegOp.set ((i : Int) + 1) 0)

/-! ## Server main loop (`server.c`) -/

/-- `typedef struct { long client_pid; char content[256]; } MyMessage;`. -/
structure MyMessage where
  client_pid : Int
  content : String
deriving DecidableEq, Repr

/-- What `dequeue_message` hands to one iteration of the main loop: `-1`, or
`0` with the message written to `incoming`. -/
inductive Dequeue where
  | failure
  | message (incoming : MyMessage)
deriving DecidableEq, Repr

/-- What the system grants to one call of `handle_command_in_thread`: whether
`malloc(sizeof(ThreadArg))` returns a block and whether
`spawn_thread_from_pool` returns a thread. -/
structure Launch where
  tArgAllocated : Bool
  threadCreated : Bool
deriving DecidableEq, Repr

/-- One iteration of the main loop as the environment determines it. -/
structure Iteration where
  result : Dequeue
  launch : Launch
deriving DecidableEq, Repr

/-- What the server does, as seen from outside. -/
inductive Event where
  | worker_started (arg : ThreadArg)
  | worker_call (c : Call)
  | destroy_message_queue (unlink_on_destroy : Int)
deriving DecidableEq, Repr

/-- `strncpy(tArg->command, command, sizeof(tArg->command) - 1)` into a zeroed
buffer of 256 bytes. -/
def strncpy255 (command : String) : String :=
  String.mk (command.data.take 255)

/-- `void handle_command_in_thread(char* command, long client_pid)`.  The
function joins the thread it starts, so the worker has run when it returns. -/
def handle_command_in_thread (command : String) (client_pid : Int) (l : Launch)
    (r : Registry) : Registry × List Event :=
  if !l.tArgAllocated then (r, [])
  else
    let tArg : ThreadArg := { command := strncpy255 command, client_pid := client_pid }
    if !l.threadCreated then (r, [])
    else
      let w := child_thread_func (some tArg) r
      (w.1, Event.worker_started tArg :: w.2.map Event.worker_call)

/-- The state of a server run: what happened, the registry, and whether the
`while (1)` loop has been left. -/
structure ServerRun where
  events : List Event
  registry : Registry
  leftLoop : Bool
deriving DecidableEq, Repr

/-- The `while (1)` loop of `main`, fed with the iterations the environment
provides.  When they run out the server is blocked in `mq_receive`. -/
def mainLoop : List Iteration → Registry → ServerRun
  | [], r => { events := [], registry := r, leftLoop := false }
  | it :: rest, r =>
    match it.result with
    | Dequeue.failure => { events := [], registry := r, leftLoop := true }
    | Dequeue.message incoming =>
      if strcmp incoming.content "SHUTDOWN" = 0 then
        { events := [], registry := r, leftLoop := true }
      else
        let h := handle_command_in_thread incoming.content incoming.client_pid it.launch r
        let run := mainLoop rest h.1
        { run with events := h.2 ++ run.events }

/-- `int main(void)` of `server.c` once the queue has been created: the loop,
then `destroy_message_queue(g_outgoing_queue, 1)`. -/
def server_main (its : List Iteration) : ServerRun :=
  let run := mainLoop its Registry.init
  if run.leftLoop then { run with events := run.events ++ [Event.destroy_message_queue 1] }
  else run

/-- The contexts of the workers started, in start order. -/
def workersStarted : List Event → List ThreadArg
  | [] => []
  | Event.worker_started arg :: rest => arg :: workersStarted rest
  | _ :: rest => workersStarted rest

/-- The arguments of the `destroy_message_queue` calls, in call order. -/
def destroyCalls : List Event → List Int
  | [] => []
  | Event.destroy_message_queue u :: rest => u :: destroyCalls rest
  | _ :: rest => destroyCalls rest

/-- An iteration that ends the loop: `dequeue_message` fails or the body is
`SHUTDOWN`. -/
def Iteration.stops (it : Iteration) : Bool :=
  match it.result with
  | Dequeue.failure => true
  | Dequeue.message incoming => decide (incoming.content = "SHUTDOWN")

/-- The context a worker for the iteration's message is to get: the body and
the sender's id. -/
def Iteration.context (it : Iteration) : Option ThreadArg :=
  match it.result with
  | Dequeue.failure => none
  | Dequeue.message incoming =>
    some { command := incoming.content, client_pid := incoming.client_pid }

/-- The body of the iteration's message is a C string that fits `content[256]`
with its terminating NUL. -/
def Iteration.fits (it : Iteration) : Bool :=
  match it.result with
  | Dequeue.failure => true
  | Dequeue.message incoming => decide (incoming.content.length ≤ 255)

/-- Both the `ThreadArg` block and the thread are granted. -/
def Launch.succeeds (l : Launch) : Bool :=
  l.tArgAllocated && l.threadCreated

/-! ## Array indices the registry operations touch -/

/-- `findLoop` together with the indices `i` of the reads
`g_registeredClients[i].pid`, in order. -/
def findLoopIdx (a : List RegisteredClient) (client_ID : Int) :
    Nat → Nat → Option Nat × List Int
  | 0, _ => (none, [])
  | k + 1, i =>
    if (slot a i).pid = client_ID then (some i, [(i : Int)])
    else
      ((findLoopIdx a client_ID k (i + 1)).1,
        (i : Int) :: (findLoopIdx a client_ID k (i + 1)).2)

/-- `shiftLoop` together with the indices it touches: per iteration the read
`g_registeredClients[j + 1]` and the write `g_registeredClients[j]`. -/
def shiftLoopIdx (a : List RegisteredClient) :
    Nat → Nat → List RegisteredClient × List Int
  | 0, _ => (a, [])
  | k + 1, j =>
    ((shiftLoopIdx (a.set j (slot a (j + 1))) k (j + 1)).1,
      ((j : Int) + 1) :: (j : Int) ::
        (shiftLoopIdx (a.set j (slot a (j + 1))) k (j + 1)).2)

/-- `listLoop` together with the indices it reads: per iteration
`g_registeredClients[i].hidden` and, for a visible entry,
`g_registeredClients[i].pid`. -/
def listLoopIdx (a : List RegisteredClient) : Nat → Nat → List Int × List Int
  | 0, _ => ([], [])
  | k + 1, i =>
    if (slot a i).hidden = 0 then
      ((slot a i).pid :: (listLoopIdx a k (i + 1)).1,
        (i : Int) :: (i : Int) :: (listLoopIdx a k (i + 1)).2)
    else ((listLoopIdx a k (i + 1)).1, (i : Int) :: (listLoopIdx a k (i + 1)).2)

/-- The indices of `g_registeredClients` that `get_client_status` reads. -/
def get_client_status_idx (r : Registry) (client_ID : Int) : List Int :=
  if client_ID = 0 then []
  else (findLoopIdx r.g_registeredClients client_ID r.g_numClients.toNat 0).2

/-- The indices of `g_registeredClients` that `set_client_status` touches: the
reads of its lookup, then either the write through the pointer found, or the
two writes at index `g_numClients` and the index `g_numClients - 1` (after the
increment) of the pointer it returns. -/
def set_client_status_idx (r : Registry) (client_ID status : Int) : List Int :=
  if status ≠ 0 ∧ status ≠ 1 then []
  else
    get_client_status_idx r client_ID ++
      match get_client_status r client_ID with
      | some i => [(i : Int)]
      | none =>
        if r.g_numClients ≥ (MAX_CLIENTS : Int) then []
        else [r.g_numClients, r.g_numClients, r.g_numClients + 1 - 1]

/-- The indices of `g_registeredClients` that `remove_client_status` touches:
the reads of the search, then those of the shifting loop. -/
def remove_client_status_idx (r : Registry) (client_ID : Int) : List Int :=
  (findLoopIdx r.g_registeredClients client_ID r.g_numClients.toNat 0).2 ++
    match (findLoopIdx r.g_registeredClients client_ID r.g_numClients.toNat 0).1 with
    | none => []
    | some idx =>
      (shiftLoopIdx r.g_registeredClients (r.g_numClients - 1 - (idx : Int)).toNat idx).2

/-- The indices of `g_registeredClients` that `list_visible_clients` reads. -/
def list_visible_clients_idx (r : Registry) : List Int :=
  (listLoopIdx r.g_registeredClients r.g_numClients.toNat 0).2

/-- The indices of `g_registeredClients` one call touches in state `r`. -/
def RegOp.accesses (r : Registry) : RegOp → List Int
  | RegOp.get client_ID => get_client_status_idx r client_ID
  | RegOp.set client_ID status => set_client_status_idx r client_ID status
  | RegOp.remove client_ID => remove_client_status_idx r client_ID
  | RegOp.list => list_visible_clients_idx r

/-! ## Timeout-bounded process runner (`shell_exec_with_timeout`) -/

/-- `SIGKILL` of `<signal.h>`. -/
def SIGKILL : Int := 9

/-- One iteration of the polling loop as the system determines it: what
`waitpid(pid, &status, WNOHANG)` returns, and what `time(NULL)` reads if the
iteration consults the clock. -/
structure Poll where
  waitpid : Int
  now : Int
deriving DecidableEq, Repr

/-- What the system answers to one run of the runner: the result of `fork()`,
the reading of `time(NULL)` stored in `start`, and the polls, numbered from 0. -/
structure RunnerEnv where
  forkResult : Int
  start : Int
  polls : Nat → Poll

/-- A system call the runner makes. -/
inductive RunnerEvent where
  | fork (result : Int)
  | execlp (cmd : String)
  | time (now : Int)
  | waitpid (pid result : Int)
  | kill (pid sig : Int)
  | usleep (usec : Nat)
deriving DecidableEq, Repr

/-- How a run of the runner ends, by the message it prints: `perror("fork")`,
the child branch that calls `execlp`, `perror("waitpid")`, "timed out and was
killed", "completed". -/
inductive RunnerOutcome where
  | launchError
  | childExec
  | waitError
  | killed
  | completed
deriving DecidableEq, Repr

/-- `difftime(t1, t0)` on `time_t` values, which count whole seconds. -/
def difftime (t1 t0 : Int) : Int :=
  t1 - t0

/-- The `while (1)` loop of `shell_exec_with_timeout` from poll number `i` on,
cut off after `fuel` iterations: `none` when the loop is still running then,
otherwise how it ended and the system calls made. -/
def pollLoop (pid start : Int) (polls : Nat → Poll) :
    Nat → Nat → Option (RunnerOutcome × List RunnerEvent)
  | 0, _ => none
  | fuel + 1, i =>
    let result := (polls i).waitpid
    if result = -1 then
      some (RunnerOutcome.waitError, [RunnerEvent.waitpid pid result])
    else if result = 0 then
      if difftime (polls i).now start > 3 then
        some (RunnerOutcome.killed,
          [RunnerEvent.waitpid pid result, RunnerEvent.time (polls i).now,
            RunnerEvent.kill pid SIGKILL])
      else
        match pollLoop pid start polls fuel (i + 1) with
        | none => none
        | some (o, ev) =>
          some (o, RunnerEvent.waitpid pid result :: RunnerEvent.time (polls i).now ::
            RunnerEvent.usleep 100000 :: ev)
    else
      some (RunnerOutcome.completed, [RunnerEvent.waitpid pid result])

/-- `void shell_exec_with_timeout(char *cmd)` with the loop cut off after `fuel`
polls. -/
def shell_exec_with_timeout (env : RunnerEnv) (cmd : String) (fuel : Nat) :
    Option (RunnerOutcome × List RunnerEvent) :=
  let pid := env.forkResult
  if pid < 0 then some (RunnerOutcome.launchError, [RunnerEvent.fork pid])
  else if pid = 0 then
    some (RunnerOutcome.childExec, [RunnerEvent.fork pid, RunnerEvent.execlp cmd])
  else
    match pollLoop pid env.start env.polls fuel 0 with
    | none => none
    | some (o, ev) => some (o, RunnerEvent.fork pid :: RunnerEvent.time env.start :: ev)

/-- The `kill` calls among the system calls, in order. -/
def killsSent : List RunnerEvent → List (Int × Int)
  | [] => []
  | RunnerEvent.kill pid sig :: rest => (pid, sig) :: killsSent rest
  | _ :: rest => killsSent rest

/-- The results of the `waitpid` calls among the system calls, in order. -/
def waitpidResults : List RunnerEvent → List Int
  | [] => []
  | RunnerEvent.waitpid _ result :: rest => result :: waitpidResults rest
  | _ :: rest => waitpidResults rest

/-- The `fork` calls among the system calls. -/
def forkCalls : List RunnerEvent → List Int
  | [] => []
  | RunnerEvent.fork result :: rest => result :: forkCalls rest
  | _ :: rest => forkCalls rest

/-- The system calls of `k` polls from number `i` on that find the child running
and the deadline not passed: `waitpid`, `time`, `usleep(100000)` each. -/
def waitingEvents (pid : Int) (polls : Nat → Poll) : Nat → Nat → List RunnerEvent
  | 0, _ => []
  | k + 1, i =>
    RunnerEvent.waitpid pid 0 :: RunnerEvent.time (polls i).now ::
      RunnerEvent.usleep 100000 :: waitingEvents pid polls k (i + 1)

/-- The child has been reaped by the calls made: some `waitpid` call returned
its pid. -/
def reaped (pid : Int) (ev : List RunnerEvent) : Bool :=
  decide (pid ∈ waitpidResults ev)

/-- The clock stands at `100` at the start and at every poll reads four seconds
more, and the child is still running at every poll. -/
def hungChild : RunnerEnv :=
  { forkResult := 4242, start := 100, polls := fun _ => { waitpid := 0, now := 104 } }

/-- The clock advances one second per poll from `0`, and the child never exits. -/
def sleepingChild : RunnerEnv :=
  { forkResult := 4242, start := 0, polls := fun i => { waitpid := 0, now := (i : Int) } }

/-- The child is found running at polls 0 and 1 and has exited at poll 2, all
within the first second. -/
def quickChild : RunnerEnv :=
  { forkResult := 4242, start := 0,
    polls := fun i => { waitpid := if i < 2 then 0 else 4242, now := 0 } }

/-- The system refuses the fork. -/
def failedFork : RunnerEnv :=
  { forkResult := -1, start := 0, polls := fun _ => { waitpid := 0, now := 0 } }

/-! ## The main thread of the server, step by step -/

/-- A step of the server's main thread. `pthread_join` returns when the thread
has ended; it is recorded with the calls the worker made. -/
inductive MainStep where
  | dequeue_message (result : Dequeue)
  | spawn_thread_from_pool (arg : ThreadArg) (created : Bool)
  | pthread_join (arg : ThreadArg) (calls : List Call)
  | destroy_message_queue (unlink_on_destroy : Int)
deriving DecidableEq, Repr

/-- `handle_command_in_thread` as the steps of the main thread: the attempt to
start the thread and, when it is started, the `pthread_join` on it. -/
def handle_command_in_thread_steps (command : String) (client_pid : Int) (l : Launch)
    (r : Registry) : Registry × List MainStep :=
  if !l.tArgAllocated then (r, [])
  else
    let tArg : ThreadArg := { command := strncpy255 command, client_pid := client_pid }
    if !l.threadCreated then (r, [MainStep.spawn_thread_from_pool tArg false])
    else
      let w := child_thread_func (some tArg) r
      (w.1, [MainStep.spawn_thread_from_pool tArg true, MainStep.pthread_join tArg w.2])

/-- The `while (1)` loop of `main` as the steps of the main thread. -/
def mainLoopSteps : List Iteration → Registry → List MainStep
  | [], _ => []
  | it :: rest, r =>
    MainStep.dequeue_message it.result ::
      match it.result with
      | Dequeue.failure => []
      | Dequeue.message incoming =>
        if strcmp incoming.content "SHUTDOWN" = 0 then []
        else
          let h := handle_command_in_thread_steps incoming.content incoming.client_pid
            it.launch r
          h.2 ++ mainLoopSteps rest h.1

/-- The events of a run that its steps amount to. -/
def stepEvents : List MainStep → List Event
  | [] => []
  | MainStep.spawn_thread_from_pool arg true :: rest => Event.worker_started arg :: stepEvents rest
  | MainStep.pthread_join _ calls :: rest => calls.map Event.worker_call ++ stepEvents rest
  | MainStep.destroy_message_queue u :: rest => Event.destroy_message_queue u :: stepEvents rest
  | _ :: rest => stepEvents rest

/-! ## The client's handling of an input line (`client.c`) -/

/-- The two `strtok` calls of the client, `strtok(input, " ")` and
`strtok(NULL, "")`, on the buffer holding a line: the C string that `input`
reads afterwards, and the two tokens (`none` is `NULL`).  The first call skips
leading blanks, and overwrites the blank that ends the first token with NUL;
the second returns what follows that NUL, if anything. -/
structure Strtok where
  input : List Char
  cmd : Option (List Char)
  arg : Option (List Char)
deriving DecidableEq, Repr

/-- The effect of the two `strtok` calls on a line. -/
def strtokLine (line : List Char) : Strtok :=
  let lead := line.takeWhile (fun c => c = ' ')
  let s := line.dropWhile (fun c => c = ' ')
  if s = [] then { input := line, cmd := none, arg := none }
  else
    let tok := s.takeWhile (fun c => c ≠ ' ')
    match s.dropWhile (fun c => c ≠ ' ') with
    | [] => { input := line, cmd := some tok, arg := none }
    | _ :: rest =>
      { input := lead ++ tok, cmd := some tok, arg := if rest = [] then none else some rest }

/-- What the client does with one line. -/
structure ClientStep where
  sent : List MyMessage
  prompt : String
  continues : Bool
deriving DecidableEq, Repr

/-- One pass through the body of the client's read loop, for the line `fgets`
read with the newline removed: the `enqueue_message` calls, the prompt
afterwards, and whether the loop goes on. -/
def client_line (client_pid : Int) (prompt : String) (line : String) : ClientStep :=
  if line.length = 0 then { sent := [], prompt := prompt, continues := true }
  else
    let t := strtokLine line.data
    let input := String.mk t.input
    if strcmp input "EXIT" = 0 then
      { sent := [{ client_pid := client_pid, content := "EXIT" }], prompt := prompt,
        continues := false }
    else if strcmp input "CHPT" = 0 then
      match t.arg with
      | none => { sent := [], prompt := prompt, continues := true }
      | some arg => { sent := [], prompt := strncpy255 (String.mk arg), continues := true }
    else
      { sent := [{ client_pid := client_pid, content := strncpy255 input }], prompt := prompt,
        continues := true }

/-! ## Facts about the loops -/

theorem slot_eq_getElem? (a : List RegisteredClient) (i : Nat) :
    slot a i = (a[i]?).getD ⟨0, 0⟩ := by
  simp [slot, List.getD_eq_getElem?_getD]

theorem slot_of_getElem? {a : List RegisteredClient} {i : Nat} {e : RegisteredClient}
    (h : a[i]? = some e) : slot a i = e := by
  simp [slot_eq_getElem?, h]

theorem getElem?_eq_slot {a : List RegisteredClient} {i : Nat} (h : i < a.length) :
    a[i]? = some (slot a i) := by
  simp [slot_eq_getElem?, List.getElem?_eq_getElem h]

theorem findLoop_none {a : List RegisteredClient} {id : Int} :
    ∀ (k i : Nat), findLoop a id k i = none ↔
      ∀ j, i ≤ j → j < i + k → (slot a j).pid ≠ id := by
  intro k
  induction k with
  | zero => intro i; simp [findLoop]; intro j h1 h2; omega
  | succ k ih =>
    intro i
    unfold findLoop
    by_cases h : (slot a i).pid = id
    · simp [h]
      exact ⟨i, le_refl _, by omega, h⟩
    · simp only [h, if_false, ih]
      constructor
      · intro H j h1 h2
        by_cases hj : j = i
        · subst hj; exact h
        · exact H j (by omega) (by omega)
      · intro H j h1 h2
        exact H j (by omega) (by omega)

theorem findLoop_some {a : List RegisteredClient} {id : Int} :
    ∀ (k i m : Nat), findLoop a id k i = some m →
      i ≤ m ∧ m < i + k ∧ (slot a m).pid = id ∧
        ∀ j, i ≤ j → j < m → (slot a j).pid ≠ id := by
  intro k
  induction k with
  | zero => intro i m h; simp [findLoop] at h
  | succ k ih =>
    intro i m h
    unfold findLoop at h
    by_cases hp : (slot a i).pid = id
    · simp [hp] at h
      subst h
      exact ⟨le_refl _, by omega, hp, fun j h1 h2 => by omega⟩
    · simp only [hp, if_false] at h
      obtain ⟨h1, h2, h3, h4⟩ := ih (i + 1) m h
      refine ⟨by omega, by omega, h3, ?_⟩
      intro j hj1 hj2
      by_cases hj : j = i
      · subst hj; exact hp
      · exact h4 j (by omega) hj2

theorem shiftLoop_length : ∀ (k : Nat) (a : List RegisteredClient) (j : Nat),
    (shiftLoop a k j).length = a.length := by
  intro k
  induction k with
  | zero => intro a j; rfl
  | succ k ih => intro a j; simp [shiftLoop, ih]

theorem shiftLoop_getElem? : ∀ (k : Nat) (a : List RegisteredClient) (j t : Nat),
    j + k < a.length →
    (shiftLoop a k j)[t]? = if j ≤ t ∧ t < j + k then a[t + 1]? else a[t]? := by
  intro k
  induction k with
  | zero =>
    intro a j t _
    have h : ¬ (j ≤ t ∧ t < j + 0) := by omega
    simp only [shiftLoop, h, if_false]
  | succ k ih =>
    intro a j t hlen
    unfold shiftLoop
    rw [ih _ _ _ (by simpa using (by omega : j + 1 + k < a.length))]
    simp only [List.getElem?_set]
    by_cases h1 : j + 1 ≤ t ∧ t < j + 1 + k
    · have : ¬ j = t + 1 := by omega
      have h2 : j ≤ t ∧ t < j + (k + 1) := by omega
      simp [h1, h2, this]
    · by_cases h3 : j = t
      · subst h3
        have h2 : j ≤ j ∧ j < j + (k + 1) := by omega
        have hj : j < a.length := by omega
        simp [h2, hj, getElem?_eq_slot (by omega : j + 1 < a.length)]
      · have h2 : ¬ (j ≤ t ∧ t < j + (k + 1)) := by omega
        simp [h1, h2, h3]

theorem listLoop_eq : ∀ (k : Nat) (a : List RegisteredClient) (i : Nat),
    i + k ≤ a.length →
    listLoop a k i =
      (((a.drop i).take k).filter (fun e => decide (e.hidden = 0))).map RegisteredClient.pid := by
  intro k
  induction k with
  | zero => intro a i _; simp [listLoop]
  | succ k ih =>
    intro a i h
    have hi : i < a.length := by omega
    have hd : a.drop i = slot a i :: a.drop (i + 1) := by
      rw [List.drop_eq_getElem_cons hi]
      congr 1
      have := getElem?_eq_slot hi
      rw [List.getElem?_eq_getElem hi] at this
      exact Option.some.inj this
    unfold listLoop
    rw [ih a (i + 1) (by omega), hd]
    by_cases hh : (slot a i).hidden = 0
    · simp [hh, List.take_succ_cons, List.filter_cons]
    · simp [hh, List.take_succ_cons, List.filter_cons]

/-- In a list whose first element satisfying `p` sits at index `m`, erasing
the first element satisfying `p` erases index `m`. -/
theorem eraseP_eq_eraseIdx_first {α : Type} (p : α → Bool) :
    ∀ (l : List α) (m : Nat), (∃ x, l[m]? = some x ∧ p x = true) →
      (∀ j x, j < m → l[j]? = some x → p x = false) →
      l.eraseP p = l.eraseIdx m := by
  intro l
  induction l with
  | nil => intro m h; simp at h
  | cons y ys ih =>
    intro m h hfirst
    cases m with
    | zero =>
      obtain ⟨x, hx, hp⟩ := h
      simp at hx
      subst hx
      simp [List.eraseP_cons, hp]
    | succ m =>
      have hy : p y = false := hfirst 0 y (by omega) (by simp)
      obtain ⟨x, hx, hp⟩ := h
      simp at hx
      simp only [List.eraseP_cons, hy, List.eraseIdx_cons_succ]
      simp
      exact ih m ⟨x, hx, hp⟩ (fun j z hj hz => hfirst (j + 1) z (by omega) (by simpa using hz))

/-! ## The operations on the live part of the table -/

theorem entries_length {r : Registry} (h : r.WF) :
    r.entries.length = r.g_numClients.toNat := by
  obtain ⟨h1, h2, h3⟩ := h
  simp only [Registry.entries, List.length_take, h1, MAX_CLIENTS] at *
  omega

theorem entries_getElem? {r : Registry} (h : r.WF) {i : Nat}
    (hi : i < r.g_numClients.toNat) :
    r.entries[i]? = some (slot r.g_registeredClients i) := by
  obtain ⟨h1, h2, h3⟩ := h
  simp only [Registry.entries, List.getElem?_take, hi, if_true]
  apply getElem?_eq_slot
  simp only [h1, MAX_CLIENTS] at *
  omega

theorem mem_entries_iff {r : Registry} (h : r.WF) (e : RegisteredClient) :
    e ∈ r.entries ↔ ∃ i, i < r.g_numClients.toNat ∧ slot r.g_registeredClients i = e := by
  rw [List.mem_iff_getElem?]
  constructor
  · rintro ⟨i, hi⟩
    have hlt : i < r.entries.length := by
      by_contra hc
      rw [List.getElem?_eq_none (by omega)] at hi
      cases hi
    rw [entries_length h] at hlt
    rw [entries_getElem? h hlt] at hi
    exact ⟨i, hlt, Option.some.inj hi⟩
  · rintro ⟨i, hi, he⟩
    exact ⟨i, by rw [entries_getElem? h hi, he]⟩

theorem get_client_status_some {r : Registry} {id : Int} {i : Nat}
    (hg : get_client_status r id = some i) :
    id ≠ 0 ∧ i < r.g_numClients.toNat ∧ (slot r.g_registeredClients i).pid = id ∧
      ∀ j, j < i → (slot r.g_registeredClients j).pid ≠ id := by
  unfold get_client_status at hg
  by_cases h0 : id = 0
  · simp [h0] at hg
  · simp only [h0, if_false] at hg
    obtain ⟨_, h2, h3, h4⟩ := findLoop_some _ _ _ hg
    exact ⟨h0, by omega, h3, fun j hj => h4 j (by omega) hj⟩

theorem get_client_status_none_iff {r : Registry} (h : r.WF) (id : Int) :
    get_client_status r id = none ↔ id = 0 ∨ ∀ e ∈ r.entries, e.pid ≠ id := by
  unfold get_client_status
  by_cases h0 : id = 0
  · simp [h0]
  · simp only [h0, if_false, false_or, findLoop_none]
    constructor
    · intro H e he
      obtain ⟨i, hi, rfl⟩ := (mem_entries_iff h e).1 he
      exact H i (by omega) (by omega)
    · intro H j _ hj
      exact H _ ((mem_entries_iff h _).2 ⟨j, by omega, rfl⟩)

theorem set_client_status_bad_status (r : Registry) (id : Int) {status : Int}
    (hs : status ≠ 0 ∧ status ≠ 1) : set_client_status r id status = (r, none) := by
  simp [set_client_status, hs]

theorem set_client_status_update (r : Registry) {id status : Int} {i : Nat}
    (hs : status = 0 ∨ status = 1) (hg : get_client_status r id = some i) :
    set_client_status r id status =
      ({ r with g_registeredClients :=
            r.g_registeredClients.set i ⟨(slot r.g_registeredClients i).pid, status⟩ },
        some i) := by
  have hs' : ¬ (status ≠ 0 ∧ status ≠ 1) := by omega
  simp only [set_client_status, hs', if_false, hg]

theorem set_client_status_full (r : Registry) {id status : Int}
    (hg : get_client_status r id = none) (hn : (MAX_CLIENTS : Int) ≤ r.g_numClients) :
    set_client_status r id status = (r, none) := by
  have hn' : r.g_numClients ≥ (MAX_CLIENTS : Int) := hn
  by_cases hs : status ≠ 0 ∧ status ≠ 1
  · rw [set_client_status, if_pos hs]
  · rw [set_client_status, if_neg hs]
    simp only [hg, hn', if_true]

theorem set_client_status_append {r : Registry} (h : r.WF) {id status : Int}
    (hs : status = 0 ∨ status = 1) (hg : get_client_status r id = none)
    (hn : r.g_numClients < (MAX_CLIENTS : Int)) :
    set_client_status r id status =
      ({ g_registeredClients := r.g_registeredClients.set r.g_numClients.toNat ⟨id, status⟩,
         g_numClients := r.g_numClients + 1 },
        some r.g_numClients.toNat) := by
  obtain ⟨h1, h2, h3⟩ := h
  have hs' : ¬ (status ≠ 0 ∧ status ≠ 1) := by omega
  have hn' : ¬ (r.g_numClients ≥ (MAX_CLIENTS : Int)) := by omega
  have hlt : r.g_numClients.toNat < r.g_registeredClients.length := by
    simp only [h1, MAX_CLIENTS] at *
    omega
  have hslot : slot (r.g_registeredClients.set r.g_numClients.toNat
        { slot r.g_registeredClients r.g_numClients.toNat with pid := id })
        r.g_numClients.toNat =
      { slot r.g_registeredClients r.g_numClients.toNat with pid := id } := by
    apply slot_of_getElem?
    simp [List.getElem?_set, hlt]
  simp only [set_client_status, hs', if_false, hg, hn', hslot, List.set_set]
  simp

theorem take_succ_set_self {α : Type} (a : List α) (n : Nat) (x : α) (h : n < a.length) :
    (a.set n x).take (n + 1) = a.take n ++ [x] := by
  apply List.ext_getElem?
  intro t
  simp only [List.getElem?_take, List.getElem?_set, List.getElem?_append, List.length_take]
  have hmin : min n a.length = n := by omega
  rw [hmin]
  by_cases h1 : t < n
  · have : ¬ n = t := by omega
    have : t < n + 1 := by omega
    simp [*]
  · by_cases h2 : t = n
    · subst h2
      simp [h]
    · have : ¬ t < n + 1 := by omega
      have h3 : 1 ≤ t - n := by omega
      simp [*]

theorem entries_set_client_status_update {r : Registry} {id status : Int} {i : Nat}
    (hs : status = 0 ∨ status = 1) (hg : get_client_status r id = some i) :
    (set_client_status r id status).1.entries = r.entries.set i ⟨id, status⟩ ∧
      (set_client_status r id status).1.g_numClients = r.g_numClients := by
  rw [set_client_status_update r hs hg]
  obtain ⟨_, _, h3, _⟩ := get_client_status_some hg
  simp [Registry.entries, List.set_take, h3]

theorem entries_set_client_status_append {r : Registry} (h : r.WF) {id status : Int}
    (hs : status = 0 ∨ status = 1) (hg : get_client_status r id = none)
    (hn : r.g_numClients < (MAX_CLIENTS : Int)) :
    (set_client_status r id status).1.entries = r.entries ++ [⟨id, status⟩] ∧
      (set_client_status r id status).1.g_numClients = r.g_numClients + 1 := by
  rw [set_client_status_append h hs hg hn]
  obtain ⟨h1, h2, h3⟩ := h
  have hlt : r.g_numClients.toNat < r.g_registeredClients.length := by
    simp only [h1, MAX_CLIENTS] at *
    omega
  have e : (r.g_numClients + 1).toNat = r.g_numClients.toNat + 1 := by omega
  simp only [Registry.entries, e, and_true]
  exact take_succ_set_self _ _ _ hlt

theorem remove_client_status_absent (r : Registry) {id : Int}
    (hf : findLoop r.g_registeredClients id r.g_numClients.toNat 0 = none) :
    remove_client_status r id = (r, -1) := by
  simp [remove_client_status, hf]

theorem remove_client_status_present (r : Registry) {id : Int} {idx : Nat}
    (hf : findLoop r.g_registeredClients id r.g_numClients.toNat 0 = some idx) :
    remove_client_status r id =
      ({ g_registeredClients :=
            shiftLoop r.g_registeredClients (r.g_numClients - 1 - (idx : Int)).toNat idx,
         g_numClients := r.g_numClients - 1 }, 0) := by
  simp [remove_client_status, hf]

theorem entries_remove_client_status {r : Registry} (h : r.WF) {id : Int} {idx : Nat}
    (hf : findLoop r.g_registeredClients id r.g_numClients.toNat 0 = some idx) :
    (remove_client_status r id).1.entries = r.entries.eraseIdx idx := by
  rw [remove_client_status_present r hf]
  obtain ⟨_, h2, _, _⟩ := findLoop_some _ _ _ hf
  obtain ⟨h1, h3, h4⟩ := h
  have hlen : r.g_numClients.toNat ≤ r.g_registeredClients.length := by
    simp only [h1, MAX_CLIENTS] at *
    omega
  have e1 : (r.g_numClients - 1).toNat = r.g_numClients.toNat - 1 := by omega
  have e2 : (r.g_numClients - 1 - (idx : Int)).toNat = r.g_numClients.toNat - 1 - idx := by omega
  simp only [Registry.entries, e1, e2]
  apply List.ext_getElem?
  intro t
  rw [List.getElem?_take, List.getElem?_eraseIdx,
    shiftLoop_getElem? _ _ _ _ (by omega)]
  simp only [List.getElem?_take]
  by_cases c1 : t < r.g_numClients.toNat - 1
  · by_cases c2 : t < idx
    · have c3 : ¬ (idx ≤ t ∧ t < idx + (r.g_numClients.toNat - 1 - idx)) := by omega
      have c4 : t < r.g_numClients.toNat := by omega
      simp [c1, c2, c3, c4]
    · have c3 : idx ≤ t ∧ t < idx + (r.g_numClients.toNat - 1 - idx) := by omega
      have c4 : t + 1 < r.g_numClients.toNat := by omega
      simp [c1, c2, c3, c4]
  · have c2 : ¬ t < idx := by omega
    have c4 : ¬ t + 1 < r.g_numClients.toNat := by omega
    simp [c1, c2, c4]

theorem entries_remove_client_status_eraseP {r : Registry} (h : r.WF) {id : Int} {idx : Nat}
    (hf : findLoop r.g_registeredClients id r.g_numClients.toNat 0 = some idx) :
    (remove_client_status r id).1.entries =
      r.entries.eraseP (fun e => decide (e.pid = id)) := by
  rw [entries_remove_client_status h hf]
  obtain ⟨_, h2, h3, h4⟩ := findLoop_some _ _ _ hf
  symm
  apply eraseP_eq_eraseIdx_first
  · exact ⟨_, entries_getElem? h (by omega), by simpa using h3⟩
  · intro j x hj hx
    rw [entries_getElem? h (by omega)] at hx
    have := h4 j (by omega) hj
    have hx' := Option.some.inj hx
    subst hx'
    simpa using this

theorem findLoop_none_iff_entries {r : Registry} (h : r.WF) (id : Int) :
    findLoop r.g_registeredClients id r.g_numClients.toNat 0 = none ↔
      ∀ e ∈ r.entries, e.pid ≠ id := by
  rw [findLoop_none]
  constructor
  · intro H e he
    obtain ⟨i, hi, rfl⟩ := (mem_entries_iff h e).1 he
    exact H i (by omega) (by omega)
  · intro H j _ hj
    exact H _ ((mem_entries_iff h _).2 ⟨j, by omega, rfl⟩)

/-! ## Invariants of reachable states -/

theorem WF_init : Registry.init.WF := by decide

theorem WF_set_client_status {r : Registry} (h : r.WF) (id status : Int) :
    (set_client_status r id status).1.WF := by
  by_cases hs : status ≠ 0 ∧ status ≠ 1
  · rw [set_client_status_bad_status r id hs]; exact h
  · have hs' : status = 0 ∨ status = 1 := by omega
    cases hg : get_client_status r id with
    | some i =>
      rw [set_client_status_update r hs' hg]
      obtain ⟨h1, h2, h3⟩ := h
      exact ⟨by simpa using h1, h2, h3⟩
    | none =>
      by_cases hn : r.g_numClients < (MAX_CLIENTS : Int)
      · rw [set_client_status_append h hs' hg hn]
        obtain ⟨h1, h2, h3⟩ := h
        exact ⟨by simpa using h1, by simp only; omega, by simp only; omega⟩
      · rw [set_client_status_full r hg (by omega)]; exact h

theorem WF_remove_client_status {r : Registry} (h : r.WF) (id : Int) :
    (remove_client_status r id).1.WF := by
  cases hf : findLoop r.g_registeredClients id r.g_numClients.toNat 0 with
  | none => rw [remove_client_status_absent r hf]; exact h
  | some idx =>
    rw [remove_client_status_present r hf]
    obtain ⟨_, h2, _, _⟩ := findLoop_some _ _ _ hf
    obtain ⟨h1, h3, h4⟩ := h
    exact ⟨by simpa [shiftLoop_length] using h1, by simp only; omega, by simp only; omega⟩

theorem WF_apply {r : Registry} (h : r.WF) (op : RegOp) : (op.apply r).WF := by
  cases op with
  | get _ => exact h
  | set id status => exact WF_set_client_status h id status
  | remove id => exact WF_remove_client_status h id
  | list => exact h

theorem WF_runFrom : ∀ (ops : List RegOp) {r : Registry}, r.WF → (r.runFrom ops).WF := by
  intro ops
  induction ops with
  | nil => intro r h; exact h
  | cons op ops ih => intro r h; exact ih (WF_apply h op)

theorem Reachable.WF {r : Registry} (h : Reachable r) : r.WF := by
  obtain ⟨ops, rfl⟩ := h
  exact WF_runFrom ops WF_init

theorem UniqueNonzero_init : Registry.init.UniqueNonzero := by
  simp [Registry.UniqueNonzero, Registry.entries, Registry.init]

theorem UniqueNonzero_set_client_status {r : Registry} (h : r.WF) (hu : r.UniqueNonzero)
    (id status : Int) : (set_client_status r id status).1.UniqueNonzero := by
  by_cases hs : status ≠ 0 ∧ status ≠ 1
  · rw [set_client_status_bad_status r id hs]; exact hu
  · have hs' : status = 0 ∨ status = 1 := by omega
    cases hg : get_client_status r id with
    | some i =>
      obtain ⟨_, h2, h3, _⟩ := get_client_status_some hg
      have hmap : ((set_client_status r id status).1.entries).map RegisteredClient.pid =
          r.entries.map RegisteredClient.pid := by
        rw [(entries_set_client_status_update hs' hg).1]
        apply List.ext_getElem?
        intro t
        simp only [List.getElem?_map, List.getElem?_set, entries_length h]
        by_cases c : i = t
        · subst c
          simp [h2, entries_getElem? h h2, h3]
        · simp [c]
      unfold Registry.UniqueNonzero at *
      have key : ∀ l : List RegisteredClient,
          l.Pairwise (fun x y => x.pid = y.pid → x.pid = 0) ↔
            (l.map RegisteredClient.pid).Pairwise (fun x y => x = y → x = 0) := by
        intro l; rw [List.pairwise_map]
      rw [key, hmap, ← key]
      exact hu
    | none =>
      by_cases hn : r.g_numClients < (MAX_CLIENTS : Int)
      · unfold Registry.UniqueNonzero at *
        rw [(entries_set_client_status_append h hs' hg hn).1, List.pairwise_append]
        refine ⟨hu, List.pairwise_singleton _ _, ?_⟩
        intro x hx y hy hxy
        simp only [List.mem_singleton] at hy
        subst hy
        rcases (get_client_status_none_iff h id).1 hg with h0 | hall
        · rw [hxy]; exact h0
        · exact absurd hxy (hall x hx)
      · rw [set_client_status_full r hg (by omega)]; exact hu

theorem UniqueNonzero_remove_client_status {r : Registry} (h : r.WF) (hu : r.UniqueNonzero)
    (id : Int) : (remove_client_status r id).1.UniqueNonzero := by
  cases hf : findLoop r.g_registeredClients id r.g_numClients.toNat 0 with
  | none => rw [remove_client_status_absent r hf]; exact hu
  | some idx =>
    unfold Registry.UniqueNonzero at *
    rw [entries_remove_client_status h hf]
    exact List.Pairwise.sublist (List.eraseIdx_sublist _ _) hu

theorem UniqueNonzero_apply {r : Registry} (h : r.WF) (hu : r.UniqueNonzero) (op : RegOp) :
    (op.apply r).UniqueNonzero := by
  cases op with
  | get _ => exact hu
  | set id status => exact UniqueNonzero_set_client_status h hu id status
  | remove id => exact UniqueNonzero_remove_client_status h hu id
  | list => exact hu

theorem UniqueNonzero_runFrom : ∀ (ops : List RegOp) {r : Registry},
    r.WF → r.UniqueNonzero → (r.runFrom ops).UniqueNonzero := by
  intro ops
  induction ops with
  | nil => intro r _ hu; exact hu
  | cons op ops ih => intro r h hu; exact ih (WF_apply h op) (UniqueNonzero_apply h hu op)

theorem Reachable.uniqueNonzero {r : Registry} (h : Reachable r) : r.UniqueNonzero := by
  obtain ⟨ops, rfl⟩ := h
  exact UniqueNonzero_runFrom ops WF_init UniqueNonzero_init

theorem slot_set_self {a : List RegisteredClient} {i : Nat} (x : RegisteredClient)
    (h : i < a.length) : slot (a.set i x) i = x :=
  slot_of_getElem? (by simp [List.getElem?_set, h])

theorem slot_set_ne {a : List RegisteredClient} {i j : Nat} (x : RegisteredClient)
    (h : i ≠ j) : slot (a.set i x) j = slot a j := by
  simp [slot_eq_getElem?, List.getElem?_set, h]

theorem Registry.WF.lt_length {r : Registry} (h : r.WF) {i : Nat}
    (hi : i ≤ r.g_numClients.toNat) (hn : r.g_numClients < (MAX_CLIENTS : Int)) :
    i < r.g_registeredClients.length := by
  obtain ⟨h1, h2, h3⟩ := h
  simp only [h1, MAX_CLIENTS] at *
  omega

theorem Registry.WF.le_length {r : Registry} (h : r.WF) :
    r.g_numClients.toNat ≤ r.g_registeredClients.length := by
  obtain ⟨h1, h2, h3⟩ := h
  simp only [h1, MAX_CLIENTS] at *
  omega

/-- After a successful `set_client_status` for a non-zero id the pointer
`get_client_status` returns for that id points to `(id, status)`. -/
theorem lookup_set_client_status {r : Registry} (h : r.WF) {id status : Int} (h0 : id ≠ 0)
    (hs : status = 0 ∨ status = 1)
    (hroom : get_client_status r id ≠ none ∨ r.g_numClients < (MAX_CLIENTS : Int)) :
    lookup (set_client_status r id status).1 id = some ⟨id, status⟩ := by
  have hwf' := WF_set_client_status h id status
  have hle := h.le_length
  cases hg : get_client_status r id with
  | some i =>
    obtain ⟨_, h2, h3, h4⟩ := get_client_status_some hg
    have hlen : i < r.g_registeredClients.length := by omega
    have hnew : get_client_status (set_client_status r id status).1 id ≠ none := by
      rw [Ne, get_client_status_none_iff hwf', not_or]
      refine ⟨h0, ?_⟩
      push_neg
      refine ⟨⟨id, status⟩, ?_, rfl⟩
      rw [(entries_set_client_status_update hs hg).1]
      apply List.mem_iff_getElem?.2
      exact ⟨i, by simp [List.getElem?_set, entries_length h, h2]⟩
    obtain ⟨i', hi'⟩ := Option.ne_none_iff_exists'.1 hnew
    obtain ⟨_, _, k3, k4⟩ := get_client_status_some hi'
    rw [set_client_status_update r hs hg] at hi' k3 k4
    simp only at k3 k4
    have hii : i' = i := by
      rcases Nat.lt_trichotomy i' i with c | c | c
      · exfalso
        apply h4 i' c
        rw [slot_set_ne _ (by omega)] at k3
        exact k3
      · exact c
      · exfalso
        apply k4 i c
        rw [slot_set_self _ hlen]
        exact h3
    rw [lookup, set_client_status_update r hs hg]
    simp only
    rw [hi', hii]
    simp only [Option.map_some']
    rw [slot_set_self _ hlen, h3]
  | none =>
    have hn : r.g_numClients < (MAX_CLIENTS : Int) := by
      rcases hroom with c | c
      · exact absurd hg c
      · exact c
    have hall : ∀ e ∈ r.entries, e.pid ≠ id := by
      rcases (get_client_status_none_iff h id).1 hg with c | c
      · exact absurd c h0
      · exact c
    have hlen : r.g_numClients.toNat < r.g_registeredClients.length :=
      h.lt_length (le_refl _) hn
    have hnew : get_client_status (set_client_status r id status).1 id ≠ none := by
      rw [Ne, get_client_status_none_iff hwf', not_or]
      refine ⟨h0, ?_⟩
      push_neg
      refine ⟨⟨id, status⟩, ?_, rfl⟩
      rw [(entries_set_client_status_append h hs hg hn).1]
      simp
    obtain ⟨i', hi'⟩ := Option.ne_none_iff_exists'.1 hnew
    obtain ⟨_, k2, k3, _⟩ := get_client_status_some hi'
    rw [set_client_status_append h hs hg hn] at hi' k2 k3
    simp only at k2 k3
    have hii : i' = r.g_numClients.toNat := by
      by_contra c
      have c' : i' < r.g_numClients.toNat := by omega
      apply hall (slot r.g_registeredClients i') ((mem_entries_iff h _).2 ⟨i', c', rfl⟩)
      rw [slot_set_ne _ (by omega)] at k3
      exact k3
    rw [lookup, set_client_status_append h hs hg hn]
    simp only
    rw [hi', hii]
    simp only [Option.map_some']
    rw [slot_set_self _ hlen]

/-- In a table with at most one entry per non-zero pid, erasing the first
entry for a non-zero id leaves no entry for it. -/
theorem eraseP_no_pid (id : Int) (h0 : id ≠ 0) :
    ∀ l : List RegisteredClient, l.Pairwise (fun x y => x.pid = y.pid → x.pid = 0) →
      ∀ e ∈ l.eraseP (fun e => decide (e.pid = id)), e.pid ≠ id := by
  intro l
  induction l with
  | nil => intro _ e he; simp at he
  | cons y ys ih =>
    intro hp e he
    rw [List.pairwise_cons] at hp
    by_cases hy : y.pid = id
    · simp only [List.eraseP_cons, hy, decide_True, if_true] at he
      intro hc
      have := hp.1 e he (by rw [hy, hc])
      rw [hy] at this
      exact h0 this
    · have hy' : decide (y.pid = id) = false := by simpa using hy
      simp only [List.eraseP_cons, hy', List.mem_cons] at he
      simp at he
      rcases he with rfl | he
      · exact hy
      · exact ih hp.2 e he

/-! ## The worker's keyword dispatch -/

theorem strcmpChars_eq_zero_iff : ∀ (s t : List Char), strcmpChars s t = 0 ↔ s = t := by
  intro s
  induction s with
  | nil => intro t; cases t <;> simp [strcmpChars]
  | cons a as ih =>
    intro t
    cases t with
    | nil => simp [strcmpChars]
    | cons b bs =>
      unfold strcmpChars
      by_cases hab : a = b
      · simp [hab, ih]
      · by_cases hlt : a.toNat < b.toNat
        · simp [hab, hlt]
        · simp [hab, hlt]

theorem strcmp_eq_zero_iff (s t : String) : strcmp s t = 0 ↔ s = t := by
  unfold strcmp
  rw [strcmpChars_eq_zero_iff]
  constructor
  · intro h; exact String.ext h
  · intro h; rw [h]

theorem worker_REGISTER (client_pid : Int) (r : Registry) :
    worker "REGISTER" client_pid r = (set_client_status r (toPidT client_pid) 0).1 := by
  simp [worker, child_thread_func, strcmp_eq_zero_iff]

theorem worker_HIDE (client_pid : Int) (r : Registry) :
    worker "HIDE" client_pid r = (set_client_status r (toPidT client_pid) 1).1 := by
  simp [worker, child_thread_func, strcmp_eq_zero_iff]

theorem worker_UNHIDE (client_pid : Int) (r : Registry) :
    worker "UNHIDE" client_pid r = (set_client_status r (toPidT client_pid) 0).1 := by
  simp [worker, child_thread_func, strcmp_eq_zero_iff]

theorem worker_EXIT (client_pid : Int) (r : Registry) :
    worker "EXIT" client_pid r = (remove_client_status r (toPidT client_pid)).1 := by
  simp [worker, child_thread_func, strcmp_eq_zero_iff]

theorem Reachable.start : Reachable Registry.init := ⟨[], rfl⟩

theorem Reachable.apply {r : Registry} (h : Reachable r) (op : RegOp) :
    Reachable (op.apply r) := by
  obtain ⟨ops, rfl⟩ := h
  exact ⟨ops ++ [op], by simp [Registry.run, Registry.runFrom, List.foldl_append]⟩

theorem lookup_ne_none {r : Registry} {id : Int} {e : RegisteredClient}
    (h : lookup r id = some e) : get_client_status r id ≠ none := by
  intro hc
  simp [lookup, hc] at h

/-! ## Claims -/

/-- C1 (amended): in every reachable registry state, for every client pid whose
`pid_t` value is non-zero and which either has an entry already or finds the
table below `MAX_CLIENTS` entries: after the worker handles `REGISTER` the
lookup yields the entry with `hidden = 0`, after `HIDE` it yields the entry
with `hidden = 1`, after `UNHIDE` it yields the entry with `hidden = 0`, also
when the `UNHIDE` follows a `HIDE`, and so for the sequence `REGISTER`, `HIDE`,
`UNHIDE`. -/
theorem register_hide_unhide_lookup (r : Registry) (hr : Reachable r) (client_pid : Int)
    (h0 : toPidT client_pid ≠ 0)
    (hroom : get_client_status r (toPidT client_pid) ≠ none ∨
      r.g_numClients < (MAX_CLIENTS : Int)) :
    lookup (worker "REGISTER" client_pid r) (toPidT client_pid)
        = some ⟨toPidT client_pid, 0⟩ ∧
      lookup (worker "HIDE" client_pid r) (toPidT client_pid)
        = some ⟨toPidT client_pid, 1⟩ ∧
      lookup (worker "UNHIDE" client_pid r) (toPidT client_pid)
        = some ⟨toPidT client_pid, 0⟩ ∧
      lookup (worker "UNHIDE" client_pid (worker "HIDE" client_pid r)) (toPidT client_pid)
        = some ⟨toPidT client_pid, 0⟩ ∧
      lookup (worker "HIDE" client_pid (worker "REGISTER" client_pid r)) (toPidT client_pid)
        = some ⟨toPidT client_pid, 1⟩ ∧
      lookup (worker "UNHIDE" client_pid
          (worker "HIDE" client_pid (worker "REGISTER" client_pid r))) (toPidT client_pid)
        = some ⟨toPidT client_pid, 0⟩ := by
  have hwf := hr.WF
  have h1 := lookup_set_client_status hwf h0 (Or.inl rfl : (0 : Int) = 0 ∨ (0 : Int) = 1) hroom
  have h2 := lookup_set_client_status hwf h0 (Or.inr rfl : (1 : Int) = 0 ∨ (1 : Int) = 1) hroom
  have hwf1 := WF_set_client_status hwf (toPidT client_pid) 0
  have h3 := lookup_set_client_status hwf1 h0 (Or.inr rfl : (1 : Int) = 0 ∨ (1 : Int) = 1)
    (Or.inl (lookup_ne_none h1))
  have hwf2 := WF_set_client_status hwf1 (toPidT client_pid) 1
  have h4 := lookup_set_client_status hwf2 h0 (Or.inl rfl : (0 : Int) = 0 ∨ (0 : Int) = 1)
    (Or.inl (lookup_ne_none h3))
  have hwf3 := WF_set_client_status hwf (toPidT client_pid) 1
  have h5 := lookup_set_client_status hwf3 h0 (Or.inl rfl : (0 : Int) = 0 ∨ (0 : Int) = 1)
    (Or.inl (lookup_ne_none h2))
  simp only [worker_REGISTER, worker_HIDE, worker_UNHIDE]
  exact ⟨h1, h2, h1, h5, h3, h4⟩

/-- C1, witness: client 7 on the empty registry. -/
theorem register_hide_unhide_lookup_witness :
    Reachable Registry.init ∧ toPidT 7 ≠ 0 ∧
      lookup (worker "REGISTER" 7 Registry.init) (toPidT 7) = some ⟨toPidT 7, 0⟩ ∧
      lookup (worker "UNHIDE" 7 (worker "HIDE" 7 (worker "REGISTER" 7 Registry.init)))
        (toPidT 7) = some ⟨toPidT 7, 0⟩ :=
  have h := register_hide_unhide_lookup Registry.init Reachable.start 7 (by decide)
    (Or.inr (by decide))
  ⟨Reachable.start, by decide, h.1, h.2.2.2.2.2⟩

set_option maxRecDepth 100000 in
/-- C1 as stated fails: once the clients `1, ..., 50` have registered the table
is full, and after the worker handles `REGISTER` for client 51 the lookup of
51 yields `NULL`; the registry is left as it was. -/
theorem register_full_table_lookup_none :
    Reachable (Registry.run fillHistory) ∧ toPidT 51 ≠ 0 ∧
      lookup (worker "REGISTER" 51 (Registry.run fillHistory)) (toPidT 51) = none ∧
      worker "REGISTER" 51 (Registry.run fillHistory) = Registry.run fillHistory :=
  ⟨⟨fillHistory, rfl⟩, by decide, by decide, by decide⟩

/-- C2: in every reachable registry state, for every client pid whose `pid_t`
value is non-zero, after the worker handles `EXIT` the lookup yields `NULL`. -/
theorem exit_lookup_none (r : Registry) (hr : Reachable r) (client_pid : Int)
    (h0 : toPidT client_pid ≠ 0) :
    get_client_status (worker "EXIT" client_pid r) (toPidT client_pid) = none := by
  have hwf := hr.WF
  rw [worker_EXIT, get_client_status_none_iff (WF_remove_client_status hwf _)]
  right
  cases hf : findLoop r.g_registeredClients (toPidT client_pid) r.g_numClients.toNat 0 with
  | none =>
    rw [remove_client_status_absent r hf]
    exact (findLoop_none_iff_entries hwf _).1 hf
  | some idx =>
    rw [entries_remove_client_status_eraseP hwf hf]
    exact eraseP_no_pid _ h0 _ hr.uniqueNonzero

/-- C2, witness: client 7 leaves after clients 7 and 8 have registered. -/
theorem exit_lookup_none_witness :
    Reachable (Registry.run [RegOp.set 7 0, RegOp.set 8 0]) ∧ toPidT 7 ≠ 0 ∧
      get_client_status (worker "EXIT" 7 (Registry.run [RegOp.set 7 0, RegOp.set 8 0]))
        (toPidT 7) = none :=
  ⟨⟨_, rfl⟩, by decide,
    exit_lookup_none (Registry.run [RegOp.set 7 0, RegOp.set 8 0]) ⟨_, rfl⟩ 7 (by decide)⟩

/-! ## Listing and registration order -/

theorem visibleIds_eq {r : Registry} (h : r.WF) :
    visibleIds r =
      (r.entries.filter (fun e => decide (e.hidden = 0))).map RegisteredClient.pid := by
  unfold visibleIds
  rw [listLoop_eq _ _ 0 (by have := h.le_length; omega)]
  simp [Registry.entries]

theorem printedIds_client_lines (ids : List Int) (rest : List OutLine) :
    printedIds (ids.map OutLine.client ++ rest) = ids ++ printedIds rest := by
  induction ids with
  | nil => simp
  | cons x xs ih => simp [printedIds, ih]

theorem printedIds_list_visible_clients (r : Registry) :
    printedIds (list_visible_clients r) = visibleIds r := by
  unfold list_visible_clients
  simp only [List.append_assoc, List.singleton_append, printedIds]
  split <;> simp [printedIds_client_lines, printedIds]

theorem forall₂_eraseIdx {α β : Type} {R : α → β → Prop} :
    ∀ (l₁ : List α) (l₂ : List β) (i : Nat), List.Forall₂ R l₁ l₂ →
      List.Forall₂ R (l₁.eraseIdx i) (l₂.eraseIdx i) := by
  intro l₁ l₂ i h
  induction h generalizing i with
  | nil => simp
  | cons hab _ ih =>
    cases i with
    | zero => simpa using (by assumption)
    | succ i => simpa using ⟨hab, ih i⟩

theorem forall₂_set_right {α β : Type} {R : α → β → Prop} (x : β) :
    ∀ (l₁ : List α) (l₂ : List β) (i : Nat), List.Forall₂ R l₁ l₂ →
      (∀ a b, l₂[i]? = some b → R a b → R a x) →
      List.Forall₂ R l₁ (l₂.set i x) := by
  intro l₁ l₂ i h
  induction h generalizing i with
  | nil => intro _; simp
  | cons hab hrest ih =>
    intro hx
    cases i with
    | zero => simpa using ⟨hx _ _ (by simp) hab, hrest⟩
    | succ i => simpa using ⟨hab, ih i (fun a b hb => hx a b (by simpa using hb))⟩

theorem forall₂_imp_mem {α β : Type} {R S : α → β → Prop} :
    ∀ (l₁ : List α) (l₂ : List β), List.Forall₂ R l₁ l₂ →
      (∀ a b, b ∈ l₂ → R a b → S a b) → List.Forall₂ S l₁ l₂ := by
  intro l₁ l₂ h
  induction h with
  | nil => intro _; exact List.Forall₂.nil
  | cons hab _ ih =>
    intro himp
    exact List.Forall₂.cons (himp _ _ (List.mem_cons_self _ _) hab)
      (ih (fun a b hb => himp a b (List.mem_cons_of_mem _ hb)))

theorem CreatedBy.extend {hist : List RegOp} {st : Nat} {e : RegisteredClient}
    (h : CreatedBy hist st e) (op : RegOp) (hop : e.pid ≠ 0 → op ≠ RegOp.remove e.pid) :
    CreatedBy (hist ++ [op]) st e := by
  obtain ⟨⟨status, hs, hv⟩, hget, hroom, hlater⟩ := h
  have hlt : st < hist.length := by
    by_contra hc
    rw [List.getElem?_eq_none (by omega)] at hs
    cases hs
  have htake : (hist ++ [op]).take st = hist.take st :=
    List.take_append_of_le_length (by omega)
  refine ⟨⟨status, ?_, hv⟩, ?_, ?_, ?_⟩
  · rw [List.getElem?_append_left hlt]
    exact hs
  · rw [htake]; exact hget
  · rw [htake]; exact hroom
  · intro hne k hk
    by_cases hk1 : k < hist.length
    · rw [List.getElem?_append_left hk1]
      exact hlater hne k hk
    · by_cases hk2 : k = hist.length
      · subst hk2
        simp only [List.getElem?_concat_length, ne_eq, Option.some.injEq]
        exact hop hne
      · rw [List.getElem?_eq_none (by simp; omega)]
        simp

theorem CreatedBy.of_pid_eq {hist : List RegOp} {st : Nat} {e e' : RegisteredClient}
    (h : CreatedBy hist st e) (hp : e'.pid = e.pid) : CreatedBy hist st e' := by
  unfold CreatedBy at *
  rw [hp]
  exact h

theorem Tracked.Inv.at_start : Tracked.Inv [] Tracked.init := by
  refine ⟨rfl, rfl, ?_, ?_, ?_⟩
  · simp [Tracked.init, Registry.entries, Registry.init]
  · simp [Tracked.init]
  · simp [Tracked.init]

theorem Registry.run_concat (hist : List RegOp) (op : RegOp) :
    Registry.run (hist ++ [op]) = op.apply (Registry.run hist) := by
  simp [Registry.run, Registry.runFrom, List.foldl_append]

theorem Tracked.Inv.after_call {hist : List RegOp} {t : Tracked} (h : Tracked.Inv hist t)
    (op : RegOp) : Tracked.Inv (hist ++ [op]) (t.step op) := by
  obtain ⟨hclock, hreg, hcr, hpw, hlt⟩ := h
  have hreach : Reachable t.reg := ⟨hist, hreg⟩
  have hwf := hreach.WF
  have hlt' : ∀ s ∈ t.stamps, s < t.clock + 1 := fun s hs => Nat.lt_succ_of_lt (hlt s hs)
  have hclock' : t.clock + 1 = (hist ++ [op]).length := by simp [hclock]
  have hreg' : op.apply t.reg = Registry.run (hist ++ [op]) := by
    rw [Registry.run_concat, hreg]
  refine ⟨hclock', hreg', ?_⟩
  cases op with
  | get id =>
    exact ⟨hcr.imp (fun _ _ hab => hab.extend _ (fun _ => by simp)), hpw, hlt'⟩
  | list =>
    exact ⟨hcr.imp (fun _ _ hab => hab.extend _ (fun _ => by simp)), hpw, hlt'⟩
  | set id status =>
    have hcr' : List.Forall₂ (CreatedBy (hist ++ [RegOp.set id status])) t.stamps
        t.reg.entries :=
      hcr.imp (fun _ _ hab => hab.extend _ (fun _ => by simp))
    simp only [Tracked.step, RegOp.apply]
    by_cases hs : status ≠ 0 ∧ status ≠ 1
    · rw [set_client_status_bad_status t.reg id hs]
      simp only [self_eq_add_right, one_ne_zero, if_false]
      exact ⟨hcr', hpw, hlt'⟩
    · have hs' : status = 0 ∨ status = 1 := by omega
      cases hg : get_client_status t.reg id with
      | some i =>
        obtain ⟨e1, e2⟩ := @entries_set_client_status_update _ _ status _ hs' hg
        obtain ⟨_, g2, g3, _⟩ := get_client_status_some hg
        rw [e1, e2]
        simp only [self_eq_add_right, one_ne_zero, if_false]
        refine ⟨?_, hpw, hlt'⟩
        apply forall₂_set_right _ _ _ _ hcr'
        intro a b hb hab
        rw [entries_getElem? hwf g2] at hb
        have hb' := Option.some.inj hb
        subst hb'
        exact hab.of_pid_eq g3.symm
      | none =>
        by_cases hn : t.reg.g_numClients < (MAX_CLIENTS : Int)
        · obtain ⟨e1, e2⟩ := @entries_set_client_status_append _ hwf _ status hs' hg hn
          rw [e1, e2]
          simp only [if_true]
          refine ⟨?_, ?_, ?_⟩
          · apply List.rel_append hcr'
            refine List.Forall₂.cons ⟨⟨status, ?_, hs'⟩, ?_, ?_, ?_⟩ List.Forall₂.nil
            · rw [hclock]; simp
            · rw [hclock, List.take_left' rfl, ← hreg]
              exact hg
            · rw [hclock, List.take_left' rfl, ← hreg]
              exact hn
            · intro _ k hk
              rw [List.getElem?_eq_none (by simp; omega)]
              simp
          · rw [List.pairwise_append]
            refine ⟨hpw, List.pairwise_singleton _ _, ?_⟩
            intro a ha b hb
            simp only [List.mem_singleton] at hb
            subst hb
            exact hlt a ha
          · intro s hs
            rw [List.mem_append, List.mem_singleton] at hs
            rcases hs with hs | hs
            · exact hlt' s hs
            · omega
        · rw [set_client_status_full t.reg hg (by omega)]
          simp only [self_eq_add_right, one_ne_zero, if_false]
          exact ⟨hcr', hpw, hlt'⟩
  | remove id =>
    simp only [Tracked.step, RegOp.apply]
    cases hf : findLoop t.reg.g_registeredClients id t.reg.g_numClients.toNat 0 with
    | none =>
      rw [remove_client_status_absent t.reg hf]
      refine ⟨?_, hpw, hlt'⟩
      apply forall₂_imp_mem _ _ hcr
      intro a b hb hab
      apply hab.extend
      intro _ hc
      injection hc with hc
      exact (findLoop_none_iff_entries hwf id).1 hf b hb hc.symm
    | some idx =>
      have hmem : ∀ e ∈ t.reg.entries.eraseIdx idx, e.pid ≠ 0 → e.pid ≠ id := by
        intro e he hne hc
        rw [← entries_remove_client_status hwf hf,
          entries_remove_client_status_eraseP hwf hf] at he
        exact eraseP_no_pid id (by rw [← hc]; exact hne) _ hreach.uniqueNonzero e he hc
      rw [entries_remove_client_status hwf hf]
      refine ⟨?_, ?_, ?_⟩
      · apply forall₂_imp_mem _ _ (forall₂_eraseIdx _ _ idx hcr)
        intro a b hb hab
        apply hab.extend
        intro hne hc
        injection hc with hc
        exact hmem b hb hne hc.symm
      · exact List.Pairwise.sublist (List.eraseIdx_sublist _ _) hpw
      · intro s hs
        exact hlt' s ((List.eraseIdx_sublist _ _).subset hs)

theorem Tracked.Inv.after_calls : ∀ (ops hist : List RegOp) (t : Tracked), Tracked.Inv hist t →
    Tracked.Inv (hist ++ ops) (ops.foldl Tracked.step t) := by
  intro ops
  induction ops with
  | nil => intro hist t h; simpa using h
  | cons op ops ih =>
    intro hist t h
    have := ih (hist ++ [op]) (t.step op) (h.after_call op)
    simpa using this

theorem Tracked.run_inv (ops : List RegOp) : Tracked.Inv ops (Tracked.run ops) := by
  have := Tracked.Inv.after_calls ops [] Tracked.init Tracked.Inv.at_start
  simpa using this

theorem Tracked.run_reg (ops : List RegOp) : (Tracked.run ops).reg = Registry.run ops :=
  (Tracked.run_inv ops).2.1

theorem lookup_mem {r : Registry} (h : r.WF) {id : Int} {e : RegisteredClient}
    (hl : lookup r id = some e) : e ∈ r.entries ∧ e.pid = id ∧ id ≠ 0 := by
  unfold lookup at hl
  cases hg : get_client_status r id with
  | none => simp [hg] at hl
  | some i =>
    simp only [hg, Option.map_some', Option.some.injEq] at hl
    obtain ⟨g1, g2, g3, _⟩ := get_client_status_some hg
    subst hl
    exact ⟨(mem_entries_iff h _).2 ⟨i, g2, rfl⟩, g3, g1⟩

/-- With at most one entry per non-zero pid, entries with the same non-zero pid
are the same entry. -/
theorem eq_of_pid_eq : ∀ (l : List RegisteredClient),
    l.Pairwise (fun x y => x.pid = y.pid → x.pid = 0) →
    ∀ x ∈ l, ∀ y ∈ l, x.pid = y.pid → x.pid ≠ 0 → x = y := by
  intro l
  induction l with
  | nil => intro _ x hx; simp at hx
  | cons z zs ih =>
    intro hp x hx y hy hxy hne
    rw [List.pairwise_cons] at hp
    rw [List.mem_cons] at hx hy
    rcases hx with rfl | hx <;> rcases hy with rfl | hy
    · rfl
    · exact absurd (hp.1 y hy hxy) hne
    · exact absurd (hp.1 x hx hxy.symm) (by rw [← hxy]; exact hne)
    · exact ih hp.2 x hx y hy hxy hne

/-- C3: after every history of registry calls from program start, the ids
`list_visible_clients` prints are exactly the pids of the live entries with
`hidden = 0`, one line per such entry, in slot order; slot order is
registration order, since slot by slot the entries were created (appended, and
for a non-zero pid never removed since) by calls of the history with strictly
growing call numbers; and for a non-zero id the id is printed exactly when the entry
`get_client_status` returns for it has `hidden = 0`. -/
theorem list_visible_registration_order (ops : List RegOp) :
    (Tracked.run ops).reg = Registry.run ops ∧
      printedIds (list_visible_clients (Registry.run ops)) =
        ((Registry.run ops).entries.filter (fun e => decide (e.hidden = 0))).map
          RegisteredClient.pid ∧
      List.Forall₂ (CreatedBy ops) (Tracked.run ops).stamps (Registry.run ops).entries ∧
      (Tracked.run ops).stamps.Pairwise (fun s1 s2 => s1 < s2) ∧
      (∀ id e, lookup (Registry.run ops) id = some e →
        (id ∈ printedIds (list_visible_clients (Registry.run ops)) ↔ e.hidden = 0)) := by
  have hreach : Reachable (Registry.run ops) := ⟨ops, rfl⟩
  have hwf := hreach.WF
  obtain ⟨_, _, hcr, hpw, _⟩ := Tracked.run_inv ops
  rw [Tracked.run_reg] at hcr
  refine ⟨Tracked.run_reg ops, ?_, hcr, hpw, ?_⟩
  · rw [printedIds_list_visible_clients, visibleIds_eq hwf]
  · intro id e hl
    obtain ⟨hmem, hpid, hne⟩ := lookup_mem hwf hl
    rw [printedIds_list_visible_clients, visibleIds_eq hwf]
    simp only [List.mem_map, List.mem_filter, decide_eq_true_eq]
    constructor
    · rintro ⟨e', ⟨hmem', hvis⟩, hpid'⟩
      have : e' = e :=
        eq_of_pid_eq _ hreach.uniqueNonzero e' hmem' e hmem (by rw [hpid, hpid'])
          (by rw [hpid']; exact hne)
      rw [← this]
      exact hvis
    · intro hvis
      exact ⟨e, ⟨hmem, hvis⟩, hpid⟩

/-- C3, on a history: clients 5, 6 (hidden), 7 register, 5 leaves and registers
again; the listing prints 7 and then 5. -/
theorem list_visible_registration_order_witness :
    printedIds (list_visible_clients (Registry.run
        [RegOp.set 5 0, RegOp.set 6 1, RegOp.set 7 0, RegOp.remove 5, RegOp.set 5 0])) = [7, 5] ∧
      (Tracked.run
        [RegOp.set 5 0, RegOp.set 6 1, RegOp.set 7 0, RegOp.remove 5, RegOp.set 5 0]).stamps
        = [1, 2, 4] := by
  refine ⟨?_, by decide⟩
  rw [(list_visible_registration_order _).2.1]
  decide

/-! ## Capacity -/

theorem registerAll_append : ∀ (l₁ l₂ : List Int) (r : Registry),
    registerAll (l₁ ++ l₂) r =
      ((registerAll l₂ (registerAll l₁ r).1).1,
        (registerAll l₁ r).2 ++ (registerAll l₂ (registerAll l₁ r).1).2) := by
  intro l₁
  induction l₁ with
  | nil => intro l₂ r; simp [registerAll]
  | cons x xs ih => intro l₂ r; simp [registerAll, ih]

/-- Registering distinct, non-zero, not yet present ids that fit into the table
appends them in turn; each call returns the slot it filled. -/
theorem registerAll_fresh : ∀ (ids : List Int) (r : Registry), r.WF → ids.Nodup →
    (∀ id ∈ ids, id ≠ 0) → (∀ id ∈ ids, ∀ e ∈ r.entries, e.pid ≠ id) →
    r.g_numClients + (ids.length : Int) ≤ (MAX_CLIENTS : Int) →
    (registerAll ids r).1.WF ∧
      (registerAll ids r).1.entries = r.entries ++ ids.map (fun id => ⟨id, 0⟩) ∧
      (registerAll ids r).1.g_numClients = r.g_numClients + (ids.length : Int) ∧
      (registerAll ids r).2 =
        (List.range ids.length).map (fun k => some (r.g_numClients.toNat + k)) := by
  intro ids
  induction ids with
  | nil => intro r h _ _ _ _; simp [registerAll, h]
  | cons x xs ih =>
    intro r h hnd hnz hfresh hfit
    rw [List.nodup_cons] at hnd
    have hx0 : x ≠ 0 := hnz x (List.mem_cons_self _ _)
    have hg : get_client_status r x = none :=
      (get_client_status_none_iff h x).2 (Or.inr (hfresh x (List.mem_cons_self _ _)))
    have hn : r.g_numClients < (MAX_CLIENTS : Int) := by
      simp only [List.length_cons, Nat.cast_add, Nat.cast_one] at hfit
      omega
    have hset := set_client_status_append h (Or.inl rfl : (0 : Int) = 0 ∨ (0 : Int) = 1) hg hn
    obtain ⟨e1, e2⟩ := entries_set_client_status_append h
      (Or.inl rfl : (0 : Int) = 0 ∨ (0 : Int) = 1) hg hn
    have hwf1 := WF_set_client_status h x 0
    have hfresh1 : ∀ id ∈ xs, ∀ e ∈ (set_client_status r x 0).1.entries, e.pid ≠ id := by
      intro id hid e he
      rw [e1, List.mem_append, List.mem_singleton] at he
      rcases he with he | he
      · exact hfresh id (List.mem_cons_of_mem _ hid) e he
      · subst he
        intro hc
        simp only at hc
        subst hc
        exact hnd.1 hid
    obtain ⟨i1, i2, i3, i4⟩ := ih (set_client_status r x 0).1 hwf1 hnd.2
      (fun id hid => hnz id (List.mem_cons_of_mem _ hid)) hfresh1
      (by rw [e2]; simp only [List.length_cons, Nat.cast_add, Nat.cast_one] at hfit; omega)
    obtain ⟨_, h0, _⟩ := h
    refine ⟨i1, ?_, ?_, ?_⟩
    · simp only [registerAll]
      rw [i2, e1]
      simp
    · simp only [registerAll]
      rw [i3, e2]
      simp only [List.length_cons, Nat.cast_add, Nat.cast_one]
      omega
    · simp only [registerAll]
      rw [i4, e2, hset]
      simp only [List.length_cons, List.range_succ_eq_map, List.map_cons, List.map_map,
        Nat.add_zero]
      congr 1
      apply List.map_congr_left
      intro k _
      simp only [Function.comp]
      congr 1
      omega

/-- C4: starting from the empty registry, for every list of `MAX_CLIENTS + 1`
pairwise distinct non-zero ids registered in turn with
`set_client_status(id, 0)`: the first `MAX_CLIENTS` calls return the slots
`0, ..., MAX_CLIENTS - 1`, the last call returns `NULL`, and the registry after
it is the registry after the first `MAX_CLIENTS` calls, holding exactly their
entries `(id, 0)` in registration order. -/
theorem register_beyond_capacity (ids : List Int) (hlen : ids.length = MAX_CLIENTS + 1)
    (hnd : ids.Nodup) (hnz : ∀ id ∈ ids, id ≠ 0) :
    (registerAll ids Registry.init).2 = (List.range MAX_CLIENTS).map some ++ [none] ∧
      (registerAll ids Registry.init).1 =
        (registerAll (ids.take MAX_CLIENTS) Registry.init).1 ∧
      (registerAll ids Registry.init).1.entries =
        (ids.take MAX_CLIENTS).map (fun id => ⟨id, 0⟩) ∧
      (registerAll ids Registry.init).1.g_numClients = (MAX_CLIENTS : Int) := by
  have hsplit : ids = ids.take MAX_CLIENTS ++ ids.drop MAX_CLIENTS :=
    (List.take_append_drop _ _).symm
  have hdrop : ∃ last, ids.drop MAX_CLIENTS = [last] := by
    have hl : (ids.drop MAX_CLIENTS).length = 1 := by simp [hlen]
    match hd : ids.drop MAX_CLIENTS, hl with
    | [x], _ => exact ⟨x, rfl⟩
  obtain ⟨last, hlast⟩ := hdrop
  rw [hlast] at hsplit
  have htl : (ids.take MAX_CLIENTS).length = MAX_CLIENTS := by simp [hlen]
  have hnd' : (ids.take MAX_CLIENTS ++ [last]).Nodup := by rw [← hsplit]; exact hnd
  rw [List.nodup_append] at hnd'
  obtain ⟨hnd1, _, hdisj⟩ := hnd'
  obtain ⟨f1, f2, f3, f4⟩ := registerAll_fresh (ids.take MAX_CLIENTS) Registry.init WF_init
    hnd1 (fun id hid => hnz id (List.mem_of_mem_take hid))
    (fun id _ e he => by simp [Registry.entries, Registry.init] at he)
    (by rw [htl]; simp [Registry.init])
  have hcount : (registerAll (ids.take MAX_CLIENTS) Registry.init).1.g_numClients
      = (MAX_CLIENTS : Int) := by
    rw [f3, htl]; simp [Registry.init]
  have hg : get_client_status (registerAll (ids.take MAX_CLIENTS) Registry.init).1 last
      = none := by
    rw [get_client_status_none_iff f1]
    right
    intro e he hc
    rw [f2] at he
    simp only [Registry.entries, Registry.init, Int.toNat_zero, List.take_zero,
      List.nil_append, List.mem_map] at he
    obtain ⟨id, hid, rfl⟩ := he
    simp only at hc
    subst hc
    exact hdisj hid (List.mem_singleton_self _)
  have hfail := @set_client_status_full _ _ 0 hg (le_of_eq hcount.symm)
  have hall : registerAll ids Registry.init =
      ((registerAll (ids.take MAX_CLIENTS) Registry.init).1,
        (registerAll (ids.take MAX_CLIENTS) Registry.init).2 ++ [none]) := by
    conv_lhs => rw [hsplit]
    rw [registerAll_append]
    simp only [registerAll, hfail]
  rw [hall]
  refine ⟨?_, rfl, ?_, hcount⟩
  · simp only
    rw [f4, htl]
    simp [Registry.init]
  · simp only
    rw [f2]
    simp [Registry.entries, Registry.init]

set_option maxRecDepth 100000 in
/-- C4, witness: the ids `1, ..., 51`. -/
theorem register_beyond_capacity_witness :
    ((List.range (MAX_CLIENTS + 1)).map (fun i => (i : Int) + 1)).length = MAX_CLIENTS + 1 ∧
      (registerAll ((List.range (MAX_CLIENTS + 1)).map (fun i => (i : Int) + 1))
        Registry.init).2 = (List.range MAX_CLIENTS).map some ++ [none] ∧
      (registerAll ((List.range (MAX_CLIENTS + 1)).map (fun i => (i : Int) + 1))
        Registry.init).1.g_numClients = (MAX_CLIENTS : Int) :=
  have h := register_beyond_capacity ((List.range (MAX_CLIENTS + 1)).map (fun i => (i : Int) + 1))
    (by decide) (by decide) (by decide)
  ⟨by decide, h.1, h.2.2.2⟩

/-! ## The zero id -/

/-- The zero id is rejected by `get_client_status`: it returns `NULL` in every
state, and it changes nothing since it only reads. -/
theorem get_client_status_zero (r : Registry) : get_client_status r 0 = none := by
  simp [get_client_status]

/-- C5, the code at the failing input: on the empty registry
`set_client_status(0, 0)` returns a pointer to slot 0 and leaves a table with
the one entry `(0, 0)` and `g_numClients = 1`, and so does a worker handling
`REGISTER` for the client pid 0; `remove_client_status(0)` then reports
success and removes that entry. -/
theorem set_client_status_zero_id_accepted :
    (set_client_status Registry.init 0 0).2 = some 0 ∧
      (set_client_status Registry.init 0 0).1.entries = [⟨0, 0⟩] ∧
      (set_client_status Registry.init 0 0).1.g_numClients = 1 ∧
      (worker "REGISTER" 0 Registry.init).entries = [⟨0, 0⟩] ∧
      (remove_client_status (set_client_status Registry.init 0 0).1 0).2 = 0 ∧
      (remove_client_status (set_client_status Registry.init 0 0).1 0).1.entries = [] := by
  decide

/-- C6, the code at the failing input: two calls `set_client_status(0, 0)`
from program start leave two live entries with the same pid. -/
theorem duplicate_zero_id_entries :
    (Registry.run [RegOp.set 0 0, RegOp.set 0 0]).entries = [⟨0, 0⟩, ⟨0, 0⟩] ∧
      (Registry.run [RegOp.set 0 0, RegOp.set 0 0]).g_numClients = 2 := by
  decide

/-! ## Frame of `set_client_status` -/

/-- C7 as stated fails for the id 0: in the state reached by
`set_client_status(0, 0)` an entry for id 0 exists, yet `set_client_status(0, 1)`
leaves that entry as it is and appends a second one. -/
theorem set_client_status_zero_id_not_updated :
    (Registry.run [RegOp.set 0 0]).WF ∧
      (Registry.run [RegOp.set 0 0]).entries = [⟨0, 0⟩] ∧
      (set_client_status (Registry.run [RegOp.set 0 0]) 0 1).1.entries
        = [⟨0, 0⟩, ⟨0, 1⟩] ∧
      (set_client_status (Registry.run [RegOp.set 0 0]) 0 1).1.g_numClients
        ≠ (Registry.run [RegOp.set 0 0]).g_numClients := by
  decide

/-- C7 (amended): for a non-zero id and a status in `{0, 1}`, in every state
within bounds.  If an entry for the id exists, the call returns a pointer to
the first such slot `i`, and the new state is the old one with slot `i` of the
array replaced by the same entry with `hidden = status`: nothing else in the
array and not the counter changes, full table or not.  If no entry exists and
the table holds fewer than `MAX_CLIENTS` entries, the call writes `(id, status)`
into slot `g_numClients` and adds one to the counter, so that the live table is
the old one with `(id, status)` appended. -/
theorem set_client_status_frame (r : Registry) (h : r.WF) (id status : Int) (h0 : id ≠ 0)
    (hs : status = 0 ∨ status = 1) :
    ((∃ e ∈ r.entries, e.pid = id) →
      ∃ i, i < r.g_numClients.toNat ∧ (slot r.g_registeredClients i).pid = id ∧
        (∀ j, j < i → (slot r.g_registeredClients j).pid ≠ id) ∧
        set_client_status r id status =
          ({ g_registeredClients := r.g_registeredClients.set i
                ⟨(slot r.g_registeredClients i).pid, status⟩,
             g_numClients := r.g_numClients }, some i) ∧
        (set_client_status r id status).1.entries =
          r.entries.set i ⟨(slot r.g_registeredClients i).pid, status⟩) ∧
    ((∀ e ∈ r.entries, e.pid ≠ id) → r.g_numClients < (MAX_CLIENTS : Int) →
      set_client_status r id status =
          ({ g_registeredClients := r.g_registeredClients.set r.g_numClients.toNat ⟨id, status⟩,
             g_numClients := r.g_numClients + 1 }, some r.g_numClients.toNat) ∧
        (set_client_status r id status).1.entries = r.entries ++ [⟨id, status⟩]) := by
  constructor
  · rintro ⟨e, he, hp⟩
    have hne : get_client_status r id ≠ none := by
      rw [Ne, get_client_status_none_iff h, not_or]
      exact ⟨h0, fun hall => hall e he hp⟩
    obtain ⟨i, hi⟩ := Option.ne_none_iff_exists'.1 hne
    obtain ⟨_, g2, g3, g4⟩ := get_client_status_some hi
    refine ⟨i, g2, g3, g4, set_client_status_update r hs hi, ?_⟩
    rw [(entries_set_client_status_update hs hi).1, g3]
  · intro hall hn
    have hg : get_client_status r id = none :=
      (get_client_status_none_iff h id).2 (Or.inr hall)
    exact ⟨set_client_status_append h hs hg hn,
      (entries_set_client_status_append h hs hg hn).1⟩

/-- C7, witness: with clients 5 and 6 registered, hiding 6 rewrites slot 1 only
and registering 7 appends. -/
theorem set_client_status_frame_witness :
    (Registry.run [RegOp.set 5 0, RegOp.set 6 0]).WF ∧
      (set_client_status (Registry.run [RegOp.set 5 0, RegOp.set 6 0]) 6 1).1.entries
        = [⟨5, 0⟩, ⟨6, 1⟩] ∧
      (set_client_status (Registry.run [RegOp.set 5 0, RegOp.set 6 0]) 7 0).1.entries
        = (Registry.run [RegOp.set 5 0, RegOp.set 6 0]).entries ++ [⟨7, 0⟩] :=
  have h := set_client_status_frame (Registry.run [RegOp.set 5 0, RegOp.set 6 0])
    (by decide) 7 0 (by decide) (Or.inl rfl)
  ⟨by decide, by decide, (h.2 (by decide) (by decide)).2⟩

/-! ## `remove_client_status` -/

/-- C8: for every state within bounds and every id, `remove_client_status`
returns 0 or -1; it returns 0 exactly when a live entry has that pid; when it
returns -1 the state is unchanged; when it returns 0 the counter has dropped by
one, the array keeps its length, and the live table is the old one with the
first entry for the id taken out: the entries before and after it keep their
contents and order. -/
theorem remove_client_status_spec (r : Registry) (h : r.WF) (id : Int) :
    ((remove_client_status r id).2 = 0 ∨ (remove_client_status r id).2 = -1) ∧
      ((remove_client_status r id).2 = 0 ↔ ∃ e ∈ r.entries, e.pid = id) ∧
      ((remove_client_status r id).2 = -1 → (remove_client_status r id).1 = r) ∧
      ((remove_client_status r id).2 = 0 →
        (remove_client_status r id).1.g_numClients = r.g_numClients - 1 ∧
        (remove_client_status r id).1.g_registeredClients.length
          = r.g_registeredClients.length ∧
        (remove_client_status r id).1.entries
          = r.entries.eraseP (fun e => decide (e.pid = id)) ∧
        ∃ before e after, r.entries = before ++ e :: after ∧ e.pid = id ∧
          (∀ x ∈ before, x.pid ≠ id) ∧
          (remove_client_status r id).1.entries = before ++ after) := by
  cases hf : findLoop r.g_registeredClients id r.g_numClients.toNat 0 with
  | none =>
    have hall := (findLoop_none_iff_entries h id).1 hf
    rw [remove_client_status_absent r hf]
    refine ⟨Or.inr rfl, ?_, fun _ => rfl, ?_⟩
    · constructor
      · intro hc; simp at hc
      · rintro ⟨e, he, hp⟩; exact absurd hp (hall e he)
    · intro hc; simp at hc
  | some idx =>
    have hent := entries_remove_client_status_eraseP h hf
    obtain ⟨_, f2, f3, _⟩ := findLoop_some _ _ _ hf
    have hmem : ∃ e ∈ r.entries, e.pid = id :=
      ⟨_, (mem_entries_iff h _).2 ⟨idx, by omega, rfl⟩, f3⟩
    rw [remove_client_status_present r hf] at hent ⊢
    refine ⟨Or.inl rfl, ⟨fun _ => hmem, fun _ => rfl⟩, ?_, ?_⟩
    · intro hc; simp at hc
    · intro _
      refine ⟨rfl, shiftLoop_length _ _ _, hent, ?_⟩
      obtain ⟨e, he, hp⟩ := hmem
      have hpe : (fun x : RegisteredClient => decide (x.pid = id)) e = true := by
        simpa using hp
      obtain ⟨a, l₁, l₂, h1, h2, h3, h4⟩ :=
        @List.exists_of_eraseP _ (fun x : RegisteredClient => decide (x.pid = id)) _ _ he hpe
      refine ⟨l₁, a, l₂, h3, by simpa using h2, ?_, ?_⟩
      · intro x hx; simpa using h1 x hx
      · rw [hent, h4]

/-- C8, witness: removing client 6 from the table of clients 5, 6, 7. -/
theorem remove_client_status_spec_witness :
    (Registry.run [RegOp.set 5 0, RegOp.set 6 1, RegOp.set 7 0]).WF ∧
      ((remove_client_status (Registry.run [RegOp.set 5 0, RegOp.set 6 1, RegOp.set 7 0]) 6).2
        = 0 ↔ ∃ e ∈ (Registry.run [RegOp.set 5 0, RegOp.set 6 1, RegOp.set 7 0]).entries,
          e.pid = 6) ∧
      (remove_client_status (Registry.run [RegOp.set 5 0, RegOp.set 6 1, RegOp.set 7 0]) 6).1.entries
        = [⟨5, 0⟩, ⟨7, 0⟩] :=
  ⟨by decide,
    (remove_client_status_spec (Registry.run [RegOp.set 5 0, RegOp.set 6 1, RegOp.set 7 0])
      (by decide) 6).2.1,
    by decide⟩

/-! ## Keyword dispatch of the worker -/

theorem toPidT_of_fits (x : Int) (h1 : -(2 ^ 31) ≤ x) (h2 : x < 2 ^ 31) : toPidT x = x := by
  unfold toPidT
  omega

/-- C9: what a worker does is decided by equality of the whole command text
with a keyword.  `REGISTER` and `UNHIDE` make the one call
`set_client_status(client_pid, 0)`, `HIDE` the one call
`set_client_status(client_pid, 1)`, `EXIT` the one call
`remove_client_status(client_pid)`, each with the registry effect of that
call; `LIST` makes the one call `list_visible_clients`, which prints the
listing of the current registry, and leaves the registry as it is; `exit` makes no call and leaves the registry as it is; every other
text leaves the registry as it is and is passed, unchanged, in one call to
`shell_exec_with_timeout`. -/
theorem child_thread_func_dispatch (data : ThreadArg) (r : Registry) :
    (data.command = "REGISTER" ∨ data.command = "UNHIDE" →
      child_thread_func (some data) r =
        ((set_client_status r (toPidT data.client_pid) 0).1,
          [Call.set_client_status (toPidT data.client_pid) 0])) ∧
    (data.command = "HIDE" →
      child_thread_func (some data) r =
        ((set_client_status r (toPidT data.client_pid) 1).1,
          [Call.set_client_status (toPidT data.client_pid) 1])) ∧
    (data.command = "EXIT" →
      child_thread_func (some data) r =
        ((remove_client_status r (toPidT data.client_pid)).1,
          [Call.remove_client_status (toPidT data.client_pid)])) ∧
    (data.command = "LIST" →
      child_thread_func (some data) r =
        (r, [Call.list_visible_clients (list_visible_clients r)])) ∧
    (data.command = "exit" → child_thread_func (some data) r = (r, [])) ∧
    (data.command ≠ "REGISTER" → data.command ≠ "LIST" → data.command ≠ "HIDE" →
      data.command ≠ "UNHIDE" → data.command ≠ "EXIT" → data.command ≠ "exit" →
      child_thread_func (some data) r = (r, [Call.shell_exec_with_timeout data.command])) := by
  refine ⟨?_, ?_, ?_, ?_, ?_, ?_⟩
  · rintro (h | h) <;> simp [child_thread_func, strcmp_eq_zero_iff, h]
  · intro h; simp [child_thread_func, strcmp_eq_zero_iff, h]
  · intro h; simp [child_thread_func, strcmp_eq_zero_iff, h]
  · intro h; simp [child_thread_func, strcmp_eq_zero_iff, h]
  · intro h; simp [child_thread_func, strcmp_eq_zero_iff, h]
  · intro h1 h2 h3 h4 h5 h6
    simp [child_thread_func, strcmp_eq_zero_iff, h1, h2, h3, h4, h5, h6]

/-- C9, on texts that are no keyword: a keyword in lower case and a keyword
with a trailing blank go to the shell, unchanged. -/
theorem child_thread_func_dispatch_witness :
    child_thread_func (some ⟨"register", 7⟩) Registry.init
        = (Registry.init, [Call.shell_exec_with_timeout "register"]) ∧
      child_thread_func (some ⟨"HIDE ", 7⟩) Registry.init
        = (Registry.init, [Call.shell_exec_with_timeout "HIDE "]) :=
  ⟨(child_thread_func_dispatch ⟨"register", 7⟩ Registry.init).2.2.2.2.2
      (by decide) (by decide) (by decide) (by decide) (by decide) (by decide),
    (child_thread_func_dispatch ⟨"HIDE ", 7⟩ Registry.init).2.2.2.2.2
      (by decide) (by decide) (by decide) (by decide) (by decide) (by decide)⟩

/-! ## The server main loop -/

theorem workersStarted_append (l₁ l₂ : List Event) :
    workersStarted (l₁ ++ l₂) = workersStarted l₁ ++ workersStarted l₂ := by
  induction l₁ with
  | nil => rfl
  | cons e es ih => cases e <;> simp [workersStarted, ih]

theorem destroyCalls_append (l₁ l₂ : List Event) :
    destroyCalls (l₁ ++ l₂) = destroyCalls l₁ ++ destroyCalls l₂ := by
  induction l₁ with
  | nil => rfl
  | cons e es ih => cases e <;> simp [destroyCalls, ih]

theorem workersStarted_worker_calls (cs : List Call) :
    workersStarted (cs.map Event.worker_call) = [] := by
  induction cs with
  | nil => rfl
  | cons c cs ih => simp [workersStarted, ih]

theorem destroyCalls_worker_calls (cs : List Call) :
    destroyCalls (cs.map Event.worker_call) = [] := by
  induction cs with
  | nil => rfl
  | cons c cs ih => simp [destroyCalls, ih]

theorem strncpy255_of_fits (s : String) (h : s.length ≤ 255) : strncpy255 s = s := by
  unfold strncpy255
  apply String.ext
  simp only
  exact List.take_of_length_le h

theorem handle_command_in_thread_events (command : String) (client_pid : Int) (l : Launch)
    (r : Registry) :
    workersStarted (handle_command_in_thread command client_pid l r).2 =
        (if l.succeeds then [⟨strncpy255 command, client_pid⟩] else []) ∧
      destroyCalls (handle_command_in_thread command client_pid l r).2 = [] := by
  unfold handle_command_in_thread Launch.succeeds
  cases h1 : l.tArgAllocated <;> cases h2 : l.threadCreated <;>
    simp [workersStarted, destroyCalls, workersStarted_worker_calls, destroyCalls_worker_calls]

theorem mainLoop_spec : ∀ (its : List Iteration) (r : Registry),
    (∀ it ∈ its, it.fits = true) →
    workersStarted (mainLoop its r).events =
        ((its.takeWhile (fun it => !it.stops)).filter
          (fun it => it.launch.succeeds)).filterMap Iteration.context ∧
      destroyCalls (mainLoop its r).events = [] ∧
      ((mainLoop its r).leftLoop = true ↔ ∃ it ∈ its, it.stops = true) := by
  intro its
  induction its with
  | nil => intro r _; simp [mainLoop, workersStarted, destroyCalls]
  | cons it rest ih =>
    intro r hfit
    have hfit' : ∀ it ∈ rest, it.fits = true :=
      fun x hx => hfit x (List.mem_cons_of_mem _ hx)
    have hit := hfit it (List.mem_cons_self _ _)
    cases hres : it.result with
    | failure =>
      have hstop : it.stops = true := by simp [Iteration.stops, hres]
      simp [mainLoop, hres, hstop, workersStarted, destroyCalls]
    | message incoming =>
      by_cases hsd : incoming.content = "SHUTDOWN"
      · have hstop : it.stops = true := by simp [Iteration.stops, hres, hsd]
        simp [mainLoop, hres, hstop, workersStarted, destroyCalls, strcmp_eq_zero_iff, hsd]
      · have hstop : it.stops = false := by simp [Iteration.stops, hres, hsd]
        have hlen : incoming.content.length ≤ 255 := by
          simpa [Iteration.fits, hres] using hit
        obtain ⟨w1, d1⟩ := handle_command_in_thread_events incoming.content
          incoming.client_pid it.launch r
        obtain ⟨w2, d2, l2⟩ := ih
          (handle_command_in_thread incoming.content incoming.client_pid it.launch r).1 hfit'
        have hm : mainLoop (it :: rest) r =
            { mainLoop rest
                (handle_command_in_thread incoming.content incoming.client_pid it.launch r).1
              with events :=
                (handle_command_in_thread incoming.content incoming.client_pid it.launch r).2 ++
                (mainLoop rest
                  (handle_command_in_thread incoming.content incoming.client_pid
                    it.launch r).1).events } := by
          simp [mainLoop, hres, strcmp_eq_zero_iff, hsd]
        rw [hm]
        simp only [workersStarted_append, destroyCalls_append, w1, d1, w2, d2, l2,
          strncpy255_of_fits _ hlen]
        refine ⟨?_, by simp, ?_⟩
        · cases hl : it.launch.succeeds <;>
            simp [List.takeWhile_cons, hstop, hl, Iteration.context, hres]
        · simp [hstop]

/-- C10 (amended): for every sequence of iterations of the server main loop
whose message bodies fit the message buffer: workers are started, in delivery
order and with the message's body and sender id as context, for exactly those
messages before the first `SHUTDOWN` body or receive failure for which both
the `ThreadArg` allocation and the thread creation succeed; nothing is started
for the stopping message or anything after it; the loop is left exactly when
such a stop occurs; and `destroy_message_queue` is called once, with
`unlink_on_destroy = 1`, as the last event, when the loop has been left, and
not at all before. -/
theorem server_main_spec (its : List Iteration) (hfit : ∀ it ∈ its, it.fits = true) :
    workersStarted (server_main its).events =
        ((its.takeWhile (fun it => !it.stops)).filter
          (fun it => it.launch.succeeds)).filterMap Iteration.context ∧
      ((server_main its).leftLoop = true ↔ ∃ it ∈ its, it.stops = true) ∧
      destroyCalls (server_main its).events =
        (if (server_main its).leftLoop then [1] else []) ∧
      ((server_main its).leftLoop = true →
        (server_main its).events.getLast? = some (Event.destroy_message_queue 1)) := by
  obtain ⟨w, d, l⟩ := mainLoop_spec its Registry.init hfit
  unfold server_main
  cases hleft : (mainLoop its Registry.init).leftLoop with
  | false =>
    rw [hleft] at l
    simp only [Bool.false_eq_true, if_false, hleft]
    exact ⟨w, by simpa using l, d, fun hc => by cases hc⟩
  | true =>
    rw [hleft] at l
    simp only [if_true, hleft, workersStarted_append, destroyCalls_append, w, d]
    refine ⟨by simp [workersStarted], by simpa using l, by simp [destroyCalls],
      fun _ => by simp⟩

/-- C10, witness: three messages, the second one `SHUTDOWN`. -/
theorem server_main_spec_witness :
    workersStarted (server_main
        [⟨Dequeue.message ⟨7, "ls -l"⟩, ⟨true, true⟩⟩,
         ⟨Dequeue.message ⟨8, "SHUTDOWN"⟩, ⟨true, true⟩⟩,
         ⟨Dequeue.message ⟨9, "LIST"⟩, ⟨true, true⟩⟩]).events = [⟨"ls -l", 7⟩] ∧
      destroyCalls (server_main
        [⟨Dequeue.message ⟨7, "ls -l"⟩, ⟨true, true⟩⟩,
         ⟨Dequeue.message ⟨8, "SHUTDOWN"⟩, ⟨true, true⟩⟩,
         ⟨Dequeue.message ⟨9, "LIST"⟩, ⟨true, true⟩⟩]).events = [1] := by
  have h := server_main_spec
    [⟨Dequeue.message ⟨7, "ls -l"⟩, ⟨true, true⟩⟩,
     ⟨Dequeue.message ⟨8, "SHUTDOWN"⟩, ⟨true, true⟩⟩,
     ⟨Dequeue.message ⟨9, "LIST"⟩, ⟨true, true⟩⟩] (by decide)
  refine ⟨?_, ?_⟩
  · rw [h.1]; decide
  · rw [h.2.2.1]; decide

/-- C10 as stated fails: the message `LIST` from client 7 precedes `SHUTDOWN`,
the `ThreadArg` is allocated but no thread is granted; no worker is started
for it, the loop goes on, and the queue is destroyed once with unlink. -/
theorem server_main_thread_not_created :
    workersStarted (server_main
        [⟨Dequeue.message ⟨7, "LIST"⟩, ⟨true, false⟩⟩,
         ⟨Dequeue.message ⟨7, "SHUTDOWN"⟩, ⟨true, true⟩⟩]).events = [] ∧
      ([⟨Dequeue.message ⟨7, "LIST"⟩, ⟨true, false⟩⟩,
        ⟨Dequeue.message ⟨7, "SHUTDOWN"⟩, ⟨true, true⟩⟩].takeWhile
          (fun it => !it.stops)).filterMap Iteration.context = [⟨"LIST", 7⟩] ∧
      destroyCalls (server_main
        [⟨Dequeue.message ⟨7, "LIST"⟩, ⟨true, false⟩⟩,
         ⟨Dequeue.message ⟨7, "SHUTDOWN"⟩, ⟨true, true⟩⟩]).events = [1] := by
  decide

/-! ## The polling loop of the runner -/

theorem pollLoop_kill (pid start : Int) (polls : Nat → Poll) (fuel i : Nat)
    (h0 : (polls i).waitpid = 0) (hlate : difftime (polls i).now start > 3) :
    pollLoop pid start polls (fuel + 1) i =
      some (RunnerOutcome.killed,
        [RunnerEvent.waitpid pid 0, RunnerEvent.time (polls i).now,
          RunnerEvent.kill pid SIGKILL]) := by
  simp [pollLoop, h0, hlate]

theorem pollLoop_completed (pid start : Int) (polls : Nat → Poll) (fuel i : Nat)
    (h1 : (polls i).waitpid ≠ -1) (h0 : (polls i).waitpid ≠ 0) :
    pollLoop pid start polls (fuel + 1) i =
      some (RunnerOutcome.completed, [RunnerEvent.waitpid pid (polls i).waitpid]) := by
  simp [pollLoop, h0, h1]

theorem pollLoop_wait (pid start : Int) (polls : Nat → Poll) (fuel i : Nat)
    (h0 : (polls i).waitpid = 0) (hearly : ¬ difftime (polls i).now start > 3) :
    pollLoop pid start polls (fuel + 1) i =
      (pollLoop pid start polls fuel (i + 1)).map
        (fun p => (p.1, RunnerEvent.waitpid pid 0 :: RunnerEvent.time (polls i).now ::
          RunnerEvent.usleep 100000 :: p.2)) := by
  rw [pollLoop]
  simp only [h0, hearly, if_false, if_true]
  have hne : ¬ ((0 : Int) = -1) := by decide
  simp only [hne, if_false]
  cases pollLoop pid start polls fuel (i + 1) with
  | none => rfl
  | some p => rfl

/-- While the child is running and the deadline has not passed, the loop only
waits: `k` such polls add their system calls in front of what follows. -/
theorem pollLoop_waiting (pid start : Int) (polls : Nat → Poll) :
    ∀ (k fuel i : Nat),
      (∀ j, j < k → (polls (i + j)).waitpid = 0 ∧ ¬ difftime (polls (i + j)).now start > 3) →
      pollLoop pid start polls (k + fuel) i =
        (pollLoop pid start polls fuel (i + k)).map
          (fun p => (p.1, waitingEvents pid polls k i ++ p.2)) := by
  intro k
  induction k with
  | zero =>
    intro fuel i _
    simp only [Nat.zero_add, Nat.add_zero, waitingEvents, List.nil_append]
    cases pollLoop pid start polls fuel i <;> rfl
  | succ k ih =>
    intro fuel i h
    have hi := h 0 (Nat.succ_pos k)
    rw [Nat.add_zero] at hi
    have e : k + 1 + fuel = (k + fuel) + 1 := by omega
    rw [e, pollLoop_wait pid start polls (k + fuel) i hi.1 hi.2,
      ih fuel (i + 1) (fun j hj => by
        have := h (j + 1) (by omega)
        rwa [show i + (j + 1) = i + 1 + j by omega] at this)]
    rw [show i + 1 + k = i + (k + 1) by omega]
    cases pollLoop pid start polls fuel (i + (k + 1)) with
    | none => rfl
    | some p => simp [waitingEvents]

/-- A loop that only finds waiting polls is still running when the fuel is
used up. -/
theorem pollLoop_running (pid start : Int) (polls : Nat → Poll) :
    ∀ (fuel i : Nat),
      (∀ j, j < fuel → (polls (i + j)).waitpid = 0 ∧
        ¬ difftime (polls (i + j)).now start > 3) →
      pollLoop pid start polls fuel i = none := by
  intro fuel i h
  have := pollLoop_waiting pid start polls fuel 0 i h
  rw [Nat.add_zero] at this
  rw [this]
  rfl

theorem killsSent_append (l₁ l₂ : List RunnerEvent) :
    killsSent (l₁ ++ l₂) = killsSent l₁ ++ killsSent l₂ := by
  induction l₁ with
  | nil => rfl
  | cons e es ih => cases e <;> simp [killsSent, ih]

theorem waitpidResults_append (l₁ l₂ : List RunnerEvent) :
    waitpidResults (l₁ ++ l₂) = waitpidResults l₁ ++ waitpidResults l₂ := by
  induction l₁ with
  | nil => rfl
  | cons e es ih => cases e <;> simp [waitpidResults, ih]

theorem killsSent_waitingEvents (pid : Int) (polls : Nat → Poll) :
    ∀ (k i : Nat), killsSent (waitingEvents pid polls k i) = [] := by
  intro k
  induction k with
  | zero => intro i; rfl
  | succ k ih => intro i; simp [waitingEvents, killsSent, ih]

theorem waitpidResults_waitingEvents (pid : Int) (polls : Nat → Poll) :
    ∀ (k i : Nat), waitpidResults (waitingEvents pid polls k i) = List.replicate k 0 := by
  intro k
  induction k with
  | zero => intro i; rfl
  | succ k ih => intro i; simp [waitingEvents, waitpidResults, ih, List.replicate_succ]

/-- C11: when the fork succeeds, `waitpid` returns 0 at every poll and some
poll finds more than 3 seconds elapsed since `start`, there is a first such
poll, number `n`; the run has not ended within the first `n` polls, and with
poll `n` it ends: reported as killed, after `n` waiting polls and the
`waitpid` of poll `n`, with `kill(pid, SIGKILL)` as its last system call, the
only `kill` of the run, and with `n + 1` calls of `waitpid`. -/
theorem runner_kills_hung_child (env : RunnerEnv) (cmd : String)
    (hfork : 0 < env.forkResult) (hrun : ∀ i, (env.polls i).waitpid = 0)
    (hclock : ∃ m, difftime (env.polls m).now env.start > 3) :
    ∃ n, difftime (env.polls n).now env.start > 3 ∧
      (∀ i, i < n → ¬ difftime (env.polls i).now env.start > 3) ∧
      (∀ fuel, fuel ≤ n → shell_exec_with_timeout env cmd fuel = none) ∧
      ∀ fuel, n < fuel →
        shell_exec_with_timeout env cmd fuel =
          some (RunnerOutcome.killed,
            RunnerEvent.fork env.forkResult :: RunnerEvent.time env.start ::
              (waitingEvents env.forkResult env.polls n 0 ++
                [RunnerEvent.waitpid env.forkResult 0, RunnerEvent.time (env.polls n).now,
                  RunnerEvent.kill env.forkResult SIGKILL])) ∧
        killsSent (RunnerEvent.fork env.forkResult :: RunnerEvent.time env.start ::
              (waitingEvents env.forkResult env.polls n 0 ++
                [RunnerEvent.waitpid env.forkResult 0, RunnerEvent.time (env.polls n).now,
                  RunnerEvent.kill env.forkResult SIGKILL])) = [(env.forkResult, SIGKILL)] ∧
        (waitpidResults (RunnerEvent.fork env.forkResult :: RunnerEvent.time env.start ::
              (waitingEvents env.forkResult env.polls n 0 ++
                [RunnerEvent.waitpid env.forkResult 0, RunnerEvent.time (env.polls n).now,
                  RunnerEvent.kill env.forkResult SIGKILL]))).length = n + 1 := by
  refine ⟨Nat.find hclock, Nat.find_spec hclock, fun i hi => Nat.find_min hclock hi, ?_, ?_⟩
  · intro fuel hfuel
    have h1 : ¬ env.forkResult < 0 := by omega
    have h2 : ¬ env.forkResult = 0 := by omega
    have hw := pollLoop_running env.forkResult env.start env.polls fuel 0
      (fun j hj => ⟨hrun _, by
        rw [Nat.zero_add]
        exact Nat.find_min hclock (by omega)⟩)
    simp only [shell_exec_with_timeout, h1, h2, if_false, hw]
  · intro fuel hfuel
    have h1 : ¬ env.forkResult < 0 := by omega
    have h2 : ¬ env.forkResult = 0 := by omega
    obtain ⟨f, rfl⟩ : ∃ f, fuel = Nat.find hclock + (f + 1) := ⟨fuel - Nat.find hclock - 1, by omega⟩
    have hw := pollLoop_waiting env.forkResult env.start env.polls (Nat.find hclock) (f + 1) 0
      (fun j hj => ⟨hrun _, by
        rw [Nat.zero_add]
        exact Nat.find_min hclock hj⟩)
    rw [Nat.zero_add, pollLoop_kill _ _ _ _ _ (hrun _) (Nat.find_spec hclock)] at hw
    refine ⟨?_, ?_, ?_⟩
    · simp only [shell_exec_with_timeout, h1, h2, if_false, hw, Option.map_some']
    · simp [killsSent, killsSent_append, killsSent_waitingEvents]
    · simp [waitpidResults, waitpidResults_append, waitpidResults_waitingEvents]

/-- C11, witness: the clock advances one second per poll and the child never
exits. -/
theorem runner_kills_hung_child_witness :
    0 < sleepingChild.forkResult ∧ (∀ i, (sleepingChild.polls i).waitpid = 0) ∧
      ∃ n, difftime (sleepingChild.polls n).now sleepingChild.start > 3 ∧
        (∀ fuel, fuel ≤ n → shell_exec_with_timeout sleepingChild "sleep 10" fuel = none) :=
  have h := runner_kills_hung_child sleepingChild "sleep 10" (by decide) (fun _ => rfl)
    ⟨4, by decide⟩
  ⟨by decide, fun _ => rfl, h.choose, h.choose_spec.1, h.choose_spec.2.2.1⟩

/-- C12: when the fork succeeds, the polls before number `k` find the child
running and at most 3 seconds elapsed, and at poll `k` `waitpid` returns the
child's pid, then the run ends with poll `k`, reported as completed, after `k`
waiting polls, with that `waitpid` as its last system call and without any
`kill`; it has not ended before poll `k`.  When the fork fails the run is
reported as a launch error and `fork` is its only system call. -/
theorem runner_completes_or_fails_to_launch (env : RunnerEnv) (cmd : String) :
    (0 < env.forkResult → ∀ k,
      (∀ i, i < k → (env.polls i).waitpid = 0 ∧
        ¬ difftime (env.polls i).now env.start > 3) →
      (env.polls k).waitpid = env.forkResult →
      (∀ fuel, fuel ≤ k → shell_exec_with_timeout env cmd fuel = none) ∧
      ∀ fuel, k < fuel →
        shell_exec_with_timeout env cmd fuel =
          some (RunnerOutcome.completed,
            RunnerEvent.fork env.forkResult :: RunnerEvent.time env.start ::
              (waitingEvents env.forkResult env.polls k 0 ++
                [RunnerEvent.waitpid env.forkResult env.forkResult])) ∧
        killsSent (RunnerEvent.fork env.forkResult :: RunnerEvent.time env.start ::
              (waitingEvents env.forkResult env.polls k 0 ++
                [RunnerEvent.waitpid env.forkResult env.forkResult])) = [] ∧
        (waitpidResults (RunnerEvent.fork env.forkResult :: RunnerEvent.time env.start ::
              (waitingEvents env.forkResult env.polls k 0 ++
                [RunnerEvent.waitpid env.forkResult env.forkResult]))).length = k + 1) ∧
    (env.forkResult < 0 → ∀ fuel,
      shell_exec_with_timeout env cmd fuel =
        some (RunnerOutcome.launchError, [RunnerEvent.fork env.forkResult])) := by
  constructor
  · intro hfork k hbefore hexit
    have h1 : ¬ env.forkResult < 0 := by omega
    have h2 : ¬ env.forkResult = 0 := by omega
    constructor
    · intro fuel hfuel
      have hw := pollLoop_running env.forkResult env.start env.polls fuel 0
        (fun j hj => by rw [Nat.zero_add]; exact hbefore j (by omega))
      simp only [shell_exec_with_timeout, h1, h2, if_false, hw]
    · intro fuel hfuel
      obtain ⟨f, rfl⟩ : ∃ f, fuel = k + (f + 1) := ⟨fuel - k - 1, by omega⟩
      have hw := pollLoop_waiting env.forkResult env.start env.polls k (f + 1) 0
        (fun j hj => by rw [Nat.zero_add]; exact hbefore j hj)
      rw [Nat.zero_add, pollLoop_completed _ _ _ _ _ (by rw [hexit]; omega)
        (by rw [hexit]; omega), hexit] at hw
      refine ⟨?_, ?_, ?_⟩
      · simp only [shell_exec_with_timeout, h1, h2, if_false, hw, Option.map_some']
      · simp [killsSent, killsSent_append, killsSent_waitingEvents]
      · simp [waitpidResults, waitpidResults_append, waitpidResults_waitingEvents]
  · intro hfail fuel
    simp [shell_exec_with_timeout, hfail]

/-- C12, witness: a child that has exited at poll 2, and a fork that fails. -/
theorem runner_completes_or_fails_to_launch_witness :
    shell_exec_with_timeout quickChild "ls" 3 =
        some (RunnerOutcome.completed,
          [RunnerEvent.fork 4242, RunnerEvent.time 0,
            RunnerEvent.waitpid 4242 0, RunnerEvent.time 0, RunnerEvent.usleep 100000,
            RunnerEvent.waitpid 4242 0, RunnerEvent.time 0, RunnerEvent.usleep 100000,
            RunnerEvent.waitpid 4242 4242]) ∧
      shell_exec_with_timeout failedFork "ls" 0 =
        some (RunnerOutcome.launchError, [RunnerEvent.fork (-1)]) :=
  ⟨(((runner_completes_or_fails_to_launch quickChild "ls").1 (by decide) 2
      (fun i hi => by
        have : i = 0 ∨ i = 1 := by omega
        rcases this with rfl | rfl <;> decide)
      (by decide)).2 3 (by decide)).1,
    (runner_completes_or_fails_to_launch failedFork "ls").2 (by decide) 0⟩

/-- On a run that ends killed, every `waitpid` call returned 0 and the `kill`
is the last system call. -/
theorem pollLoop_killed (pid start : Int) (polls : Nat → Poll) :
    ∀ (fuel i : Nat) (ev : List RunnerEvent),
      pollLoop pid start polls fuel i = some (RunnerOutcome.killed, ev) →
      (∀ x ∈ waitpidResults ev, x = 0) ∧
        ev.getLast? = some (RunnerEvent.kill pid SIGKILL) := by
  intro fuel
  induction fuel with
  | zero => intro i ev h; simp [pollLoop] at h
  | succ fuel ih =>
    intro i ev h
    by_cases h1 : (polls i).waitpid = -1
    · simp [pollLoop, h1] at h
    · by_cases h0 : (polls i).waitpid = 0
      · by_cases hlate : difftime (polls i).now start > 3
        · rw [pollLoop_kill _ _ _ _ _ h0 hlate] at h
          simp only [Option.some.injEq, Prod.mk.injEq, true_and] at h
          subst h
          simp [waitpidResults]
        · rw [pollLoop_wait _ _ _ _ _ h0 hlate] at h
          cases hrec : pollLoop pid start polls fuel (i + 1) with
          | none => simp [hrec] at h
          | some p =>
            obtain ⟨o, ev'⟩ := p
            simp only [hrec, Option.map_some', Option.some.injEq, Prod.mk.injEq] at h
            obtain ⟨ho, hev⟩ := h
            subst ho
            obtain ⟨a1, a2⟩ := ih (i + 1) ev' hrec
            subst hev
            refine ⟨?_, ?_⟩
            · intro x hx
              simp only [waitpidResults, List.mem_cons] at hx
              rcases hx with rfl | hx
              · rfl
              · exact a1 x hx
            · cases ev' with
              | nil => simp at a2
              | cons e es => simpa [List.getLast?_cons_cons] using a2
      · rw [pollLoop_completed _ _ _ _ _ h1 h0] at h
        simp at h

/-- C15, the code at the failing input: the child is still running at the
first poll and more than 3 seconds have elapsed; the run ends with
`kill(pid, SIGKILL)` as its last system call, the one `waitpid` call made
returned 0, and no `waitpid` call returned the child's pid. -/
theorem runner_killed_child_not_reaped :
    shell_exec_with_timeout hungChild "sleep 10" 1 =
        some (RunnerOutcome.killed,
          [RunnerEvent.fork 4242, RunnerEvent.time 100, RunnerEvent.waitpid 4242 0,
            RunnerEvent.time 104, RunnerEvent.kill 4242 SIGKILL]) ∧
      reaped 4242
        [RunnerEvent.fork 4242, RunnerEvent.time 100, RunnerEvent.waitpid 4242 0,
          RunnerEvent.time 104, RunnerEvent.kill 4242 SIGKILL] = false := by
  decide

/-! ## The main thread joins its workers -/

theorem stepEvents_append (l₁ l₂ : List MainStep) :
    stepEvents (l₁ ++ l₂) = stepEvents l₁ ++ stepEvents l₂ := by
  induction l₁ with
  | nil => rfl
  | cons e es ih =>
    cases e with
    | dequeue_message _ => simp [stepEvents, ih]
    | spawn_thread_from_pool _ created => cases created <;> simp [stepEvents, ih]
    | pthread_join _ _ => simp [stepEvents, ih]
    | destroy_message_queue _ => simp [stepEvents, ih]

theorem handle_command_in_thread_steps_eq (command : String) (client_pid : Int) (l : Launch)
    (r : Registry) :
    (handle_command_in_thread_steps command client_pid l r).1 =
        (handle_command_in_thread command client_pid l r).1 ∧
      stepEvents (handle_command_in_thread_steps command client_pid l r).2 =
        (handle_command_in_thread command client_pid l r).2 := by
  unfold handle_command_in_thread_steps handle_command_in_thread
  cases l.tArgAllocated <;> cases l.threadCreated <;> simp [stepEvents]

/-- The step-by-step account of the main loop is the loop of `mainLoop`: its
steps amount to the same events. -/
theorem stepEvents_mainLoopSteps : ∀ (its : List Iteration) (r : Registry),
    stepEvents (mainLoopSteps its r) = (mainLoop its r).events := by
  intro its
  induction its with
  | nil => intro r; rfl
  | cons it rest ih =>
    intro r
    cases hres : it.result with
    | failure => simp [mainLoopSteps, mainLoop, hres, stepEvents]
    | message incoming =>
      by_cases hsd : strcmp incoming.content "SHUTDOWN" = 0
      · simp [mainLoopSteps, mainLoop, hres, hsd, stepEvents]
      · obtain ⟨e1, e2⟩ := handle_command_in_thread_steps_eq incoming.content
          incoming.client_pid it.launch r
        simp only [mainLoopSteps, mainLoop, hres, hsd, if_false, stepEvents,
          stepEvents_append, ih, e1, e2]

/-- C13 (amended): in every run of the server main loop, the step of the main
thread that follows the start of a worker thread is the `pthread_join` on that
thread, which returns when the worker has ended: the calls the worker makes
for its command, the delegated shell command among them, are made before the
main thread goes on to the next `dequeue_message`. -/
theorem main_thread_joins_each_worker : ∀ (its : List Iteration) (r : Registry)
    (pre post : List MainStep) (arg : ThreadArg),
    mainLoopSteps its r = pre ++ MainStep.spawn_thread_from_pool arg true :: post →
    ∃ r' rest, post =
      MainStep.pthread_join arg (child_thread_func (some arg) r').2 :: rest := by
  intro its
  induction its with
  | nil => intro r pre post arg h; simp [mainLoopSteps] at h
  | cons it more ih =>
    intro r pre post arg h
    cases pre with
    | nil => simp [mainLoopSteps] at h
    | cons x pre' =>
      simp only [mainLoopSteps, List.cons_append, List.cons.injEq] at h
      obtain ⟨_, h⟩ := h
      cases hres : it.result with
      | failure => simp [hres] at h
      | message incoming =>
        simp only [hres] at h
        by_cases hsd : strcmp incoming.content "SHUTDOWN" = 0
        · simp [hsd] at h
        · simp only [hsd, if_false] at h
          unfold handle_command_in_thread_steps at h
          cases ha : it.launch.tArgAllocated with
          | false =>
            simp only [ha, Bool.not_false, if_true, List.nil_append] at h
            exact ih _ _ _ _ h
          | true =>
            cases hc : it.launch.threadCreated with
            | false =>
              simp only [ha, hc, Bool.not_true, Bool.not_false, if_true, if_false,
                Bool.false_eq_true, List.singleton_append] at h
              cases pre' with
              | nil => simp at h
              | cons y pre'' =>
                simp only [List.cons_append, List.cons.injEq] at h
                exact ih _ _ _ _ h.2
            | true =>
              simp only [ha, hc, Bool.not_true, Bool.false_eq_true, if_false,
                List.cons_append, List.nil_append] at h
              cases pre' with
              | nil =>
                simp only [List.nil_append, List.cons.injEq,
                  MainStep.spawn_thread_from_pool.injEq, and_true] at h
                obtain ⟨harg, hpost⟩ := h
                subst harg
                exact ⟨r, _, hpost.symm⟩
              | cons y pre'' =>
                cases pre'' with
                | nil => simp at h
                | cons z pre''' =>
                  simp only [List.cons_append, List.cons.injEq] at h
                  exact ih _ _ _ _ h.2.2

/-- C13, witness: client 7 sends `sleep 10`, then client 8 sends `LIST`. -/
theorem main_thread_joins_each_worker_witness :
    ∃ r' rest,
      [MainStep.pthread_join ⟨"sleep 10", 7⟩ [Call.shell_exec_with_timeout "sleep 10"],
        MainStep.dequeue_message (Dequeue.message ⟨8, "LIST"⟩),
        MainStep.spawn_thread_from_pool ⟨"LIST", 8⟩ true,
        MainStep.pthread_join ⟨"LIST", 8⟩
          [Call.list_visible_clients [OutLine.header, OutLine.allHidden, OutLine.footer]]] =
      MainStep.pthread_join ⟨"sleep 10", 7⟩
        (child_thread_func (some ⟨"sleep 10", 7⟩) r').2 :: rest :=
  main_thread_joins_each_worker
    [⟨Dequeue.message ⟨7, "sleep 10"⟩, ⟨true, true⟩⟩, ⟨Dequeue.message ⟨8, "LIST"⟩, ⟨true, true⟩⟩]
    Registry.init [MainStep.dequeue_message (Dequeue.message ⟨7, "sleep 10"⟩)] _ ⟨"sleep 10", 7⟩
    (by decide)

/-- C13 as stated fails: client 7 sends `sleep 10`, then client 8 sends
`LIST`; between the start of the first worker and the second
`dequeue_message` the main thread calls `pthread_join` on that worker, which
covers the worker's `shell_exec_with_timeout("sleep 10")`. -/
theorem main_thread_waits_for_worker :
    mainLoopSteps
        [⟨Dequeue.message ⟨7, "sleep 10"⟩, ⟨true, true⟩⟩,
          ⟨Dequeue.message ⟨8, "LIST"⟩, ⟨true, true⟩⟩] Registry.init =
      [MainStep.dequeue_message (Dequeue.message ⟨7, "sleep 10"⟩),
        MainStep.spawn_thread_from_pool ⟨"sleep 10", 7⟩ true,
        MainStep.pthread_join ⟨"sleep 10", 7⟩ [Call.shell_exec_with_timeout "sleep 10"],
        MainStep.dequeue_message (Dequeue.message ⟨8, "LIST"⟩),
        MainStep.spawn_thread_from_pool ⟨"LIST", 8⟩ true,
        MainStep.pthread_join ⟨"LIST", 8⟩
          [Call.list_visible_clients [OutLine.header, OutLine.allHidden, OutLine.footer]]] := by
  decide

/-! ## The client's lines -/

/-- After the two `strtok` calls the C string at `input` is, for every line,
its leading blanks followed by its first word. -/
theorem strtokLine_input (line : List Char) :
    (strtokLine line).input =
      line.takeWhile (fun c => c = ' ') ++
        (line.dropWhile (fun c => c = ' ')).takeWhile (fun c => c ≠ ' ') := by
  unfold strtokLine
  by_cases hs : line.dropWhile (fun c => decide (c = ' ')) = []
  · simp only [hs, if_true, List.takeWhile_nil, List.append_nil]
    have := List.takeWhile_append_dropWhile (fun c => decide (c = ' ')) line
    rw [hs, List.append_nil] at this
    exact this.symm
  · simp only [hs, if_false]
    cases hd : List.dropWhile (fun c => decide (c ≠ ' '))
        (List.dropWhile (fun c => decide (c = ' ')) line) with
    | nil =>
      simp only
      have h1 := List.takeWhile_append_dropWhile (fun c => decide (c ≠ ' '))
        (List.dropWhile (fun c => decide (c = ' ')) line)
      rw [hd, List.append_nil] at h1
      rw [h1]
      exact (List.takeWhile_append_dropWhile _ line).symm
    | cons c rest => rfl

/-- A line without a blank is left as it is by the `strtok` calls. -/
theorem strtokLine_input_of_no_blank (line : List Char) (h : ' ' ∉ line) :
    (strtokLine line).input = line := by
  rw [strtokLine_input]
  have h1 : line.takeWhile (fun c => decide (c = ' ')) = [] := by
    cases line with
    | nil => rfl
    | cons c cs =>
      have : c ≠ ' ' := fun hc => h (by rw [hc]; exact List.mem_cons_self _ _)
      simp [List.takeWhile_cons, this]
  have h2 : line.dropWhile (fun c => decide (c = ' ')) = line := by
    have := List.takeWhile_append_dropWhile (fun c => decide (c = ' ')) line
    rw [h1, List.nil_append] at this
    exact this
  rw [h1, h2, List.nil_append, List.takeWhile_eq_self_iff]
  intro x hx
  have : x ≠ ' ' := fun hc => h (by rw [← hc]; exact hx)
  simpa using this

/-- A non-empty line of at most 255 characters without a blank that is neither
`EXIT` nor `CHPT` is sent whole, in one message with the client's pid. -/
theorem client_line_without_blank (client_pid : Int) (prompt line : String)
    (hne : line.length ≠ 0) (hfit : line.length ≤ 255) (hnb : ' ' ∉ line.data)
    (h1 : line ≠ "EXIT") (h2 : line ≠ "CHPT") :
    client_line client_pid prompt line =
      { sent := [{ client_pid := client_pid, content := line }], prompt := prompt,
        continues := true } := by
  have hin : String.mk (strtokLine line.data).input = line := by
    rw [strtokLine_input_of_no_blank _ hnb]
  simp only [client_line, hne, if_false, hin, strcmp_eq_zero_iff, h1, h2,
    strncpy255_of_fits _ hfit]

/-- C14, the code at the failing input: for the line `ls -l` entered in the
client with pid 4242 the one message sent has the body `ls`; the first
`strtok` call has cut the buffer at the first blank. -/
theorem client_line_cut_at_blank :
    client_line 4242 "Enter Command" "ls -l" =
        { sent := [{ client_pid := 4242, content := "ls" }], prompt := "Enter Command",
          continues := true } ∧
      (strtokLine "ls -l".data).input = "ls".data ∧
      client_line 4242 "Enter Command" "sleep 10" =
        { sent := [{ client_pid := 4242, content := "sleep" }], prompt := "Enter Command",
          continues := true } := by
  decide

/-! ## Array bounds -/

theorem findLoopIdx_fst (a : List RegisteredClient) (id : Int) :
    ∀ (k i : Nat), (findLoopIdx a id k i).1 = findLoop a id k i := by
  intro k
  induction k with
  | zero => intro i; rfl
  | succ k ih =>
    intro i
    unfold findLoopIdx findLoop
    split
    · rfl
    · exact ih (i + 1)

theorem shiftLoopIdx_fst : ∀ (k : Nat) (a : List RegisteredClient) (j : Nat),
    (shiftLoopIdx a k j).1 = shiftLoop a k j := by
  intro k
  induction k with
  | zero => intro a j; rfl
  | succ k ih => intro a j; simp only [shiftLoopIdx, shiftLoop, ih]

theorem listLoopIdx_fst (a : List RegisteredClient) :
    ∀ (k i : Nat), (listLoopIdx a k i).1 = listLoop a k i := by
  intro k
  induction k with
  | zero => intro i; rfl
  | succ k ih =>
    intro i
    unfold listLoopIdx listLoop
    split
    · simp only [ih]
    · exact ih (i + 1)

theorem findLoopIdx_bounds (a : List RegisteredClient) (id : Int) :
    ∀ (k i : Nat) (x : Int), x ∈ (findLoopIdx a id k i).2 →
      (i : Int) ≤ x ∧ x < (i : Int) + k := by
  intro k
  induction k with
  | zero => intro i x hx; simp [findLoopIdx] at hx
  | succ k ih =>
    intro i x hx
    unfold findLoopIdx at hx
    split at hx
    · simp only [List.mem_singleton] at hx
      subst hx
      push_cast
      omega
    · simp only [List.mem_cons] at hx
      rcases hx with rfl | hx
      · push_cast; omega
      · have := ih (i + 1) x hx
        push_cast at this ⊢
        omega

theorem shiftLoopIdx_bounds : ∀ (k : Nat) (a : List RegisteredClient) (j : Nat) (x : Int),
    x ∈ (shiftLoopIdx a k j).2 → (j : Int) ≤ x ∧ x ≤ (j : Int) + k := by
  intro k
  induction k with
  | zero => intro a j x hx; simp [shiftLoopIdx] at hx
  | succ k ih =>
    intro a j x hx
    simp only [shiftLoopIdx, List.mem_cons] at hx
    rcases hx with rfl | rfl | hx
    · push_cast; omega
    · push_cast; omega
    · have := ih _ (j + 1) x hx
      push_cast at this ⊢
      omega

theorem listLoopIdx_bounds (a : List RegisteredClient) :
    ∀ (k i : Nat) (x : Int), x ∈ (listLoopIdx a k i).2 →
      (i : Int) ≤ x ∧ x < (i : Int) + k := by
  intro k
  induction k with
  | zero => intro i x hx; simp [listLoopIdx] at hx
  | succ k ih =>
    intro i x hx
    unfold listLoopIdx at hx
    split at hx
    · simp only [List.mem_cons] at hx
      rcases hx with rfl | rfl | hx
      · push_cast; omega
      · push_cast; omega
      · have := ih (i + 1) x hx
        push_cast at this ⊢
        omega
    · simp only [List.mem_cons] at hx
      rcases hx with rfl | hx
      · push_cast; omega
      · have := ih (i + 1) x hx
        push_cast at this ⊢
        omega

/-- In a state within bounds every index a call touches lies in
`[0, MAX_CLIENTS)`. -/
theorem accesses_in_bounds {r : Registry} (h : r.WF) (op : RegOp) :
    ∀ x ∈ op.accesses r, 0 ≤ x ∧ x < (MAX_CLIENTS : Int) := by
  obtain ⟨_, h2, h3⟩ := h
  have hn : (r.g_numClients.toNat : Int) = r.g_numClients := Int.toNat_of_nonneg h2
  have hfind : ∀ id, ∀ x ∈ (findLoopIdx r.g_registeredClients id r.g_numClients.toNat 0).2,
      0 ≤ x ∧ x < (MAX_CLIENTS : Int) := by
    intro id x hx
    have := findLoopIdx_bounds _ _ _ _ x hx
    push_cast at this
    omega
  intro x hx
  cases op with
  | get id =>
    simp only [RegOp.accesses, get_client_status_idx] at hx
    split at hx
    · simp at hx
    · exact hfind id x hx
  | set id status =>
    simp only [RegOp.accesses, set_client_status_idx] at hx
    split at hx
    · simp at hx
    · rw [List.mem_append] at hx
      rcases hx with hx | hx
      · simp only [get_client_status_idx] at hx
        split at hx
        · simp at hx
        · exact hfind id x hx
      · cases hg : get_client_status r id with
        | some i =>
          obtain ⟨_, g2, _, _⟩ := get_client_status_some hg
          simp only [hg, List.mem_singleton] at hx
          subst hx
          omega
        | none =>
          simp only [hg] at hx
          split at hx
          · simp at hx
          · simp only [List.mem_cons, List.mem_singleton, List.not_mem_nil, or_false] at hx
            omega
  | remove id =>
    simp only [RegOp.accesses, remove_client_status_idx] at hx
    rw [List.mem_append] at hx
    rcases hx with hx | hx
    · exact hfind id x hx
    · rw [findLoopIdx_fst] at hx
      cases hf : findLoop r.g_registeredClients id r.g_numClients.toNat 0 with
      | none => simp [hf] at hx
      | some idx =>
        obtain ⟨_, f2, _, _⟩ := findLoop_some _ _ _ hf
        simp only [hf] at hx
        have := shiftLoopIdx_bounds _ _ _ x hx
        omega
  | list =>
    simp only [RegOp.accesses, list_visible_clients_idx] at hx
    have := listLoopIdx_bounds _ _ _ x hx
    push_cast at this
    omega

/-- C16: after every history of `get_client_status`, `set_client_status`,
`remove_client_status` and `list_visible_clients` calls from program start,
with any arguments, `0 <= g_numClients <= MAX_CLIENTS` holds and the array has
its `MAX_CLIENTS` slots, and every index of `g_registeredClients` that a
further call of any of the four operations reads or writes lies in
`[0, MAX_CLIENTS)`. -/
theorem registry_indices_in_bounds (ops : List RegOp) (op : RegOp) :
    0 ≤ (Registry.run ops).g_numClients ∧
      (Registry.run ops).g_numClients ≤ (MAX_CLIENTS : Int) ∧
      (Registry.run ops).g_registeredClients.length = MAX_CLIENTS ∧
      ∀ x ∈ op.accesses (Registry.run ops), 0 ≤ x ∧ x < (MAX_CLIENTS : Int) := by
  have hwf : (Registry.run ops).WF := Reachable.WF ⟨ops, rfl⟩
  exact ⟨hwf.2.1, hwf.2.2, hwf.1, accesses_in_bounds hwf op⟩

set_option maxRecDepth 100000 in
/-- C16, on a history: with the table full (clients 1 to 50), removing client 1
touches the indices up to 49 and no other. -/
theorem registry_indices_in_bounds_witness :
    (Registry.run fillHistory).g_numClients = 50 ∧
      ∀ x ∈ (RegOp.remove 1).accesses (Registry.run fillHistory),
        0 ≤ x ∧ x < (MAX_CLIENTS : Int) :=
  ⟨by decide, (registry_indices_in_bounds fillHistory (RegOp.remove 1)).2.2.2⟩

end Proto
